import Mathlib

/-!
# edgevpn: rendezvous discovery, close-peer finder, option application, ledger index

A shallow embedding of `pkg/discovery/dht.go` and `pkg/node/config.go`, with the
external collaborators (libp2p host, Kademlia DHT, base32 decoding, HMAC code, MD5
helper) taken as parameters, of the control flow of the `gotp` time-step call as far as
it decides whether the call returns, and of the ledger contract that the services tests
exercise.

Conventions: Go `int` values are `Int` (the only arithmetic is `numPeers - 1`, reached
for `numPeers ≥ 0` only); a nil pointer or nil error is `none`; a function that mutates
its receiver returns the receiver afterwards; calls to external collaborators are
recorded as a trace; a run-time panic is an explicit outcome. Memory exhaustion (a
channel buffer too large to allocate) is not modelled.
-/

namespace EdgeVPN

/-! ## Go runtime values -/

/-- Panics the embedded code can raise: run-time errors of the Go runtime, and
`panic(msg)` calls (`explicit`). -/
inductive GoPanic where
  | nilDereference
  | sendOnClosedChannel
  | closeOfClosedChannel
  | sliceBoundsOutOfRange
  | makechanSizeOutOfRange
  | integerDivideByZero
  | explicit (msg : String)
  deriving DecidableEq, Repr

/-- A non-nil Go `error` value (its message). -/
abbrev GoError := String

/-- Go `peer.ID` is a string type. -/
abbrev PeerID := String

/-- A multiaddress, kept in its textual form. -/
abbrev Multiaddr := String

/-- Go `peer.AddrInfo`: a peer identity with its known addresses. -/
structure AddrInfo where
  ID : PeerID
  Addrs : List Multiaddr
  deriving DecidableEq, Repr

/-- The handle of a constructed `*dht.IpfsDHT` (a non-nil pointer). -/
abbrev IpfsDHT := Nat

/-- Go `dht.Option`, opaque to this package. -/
abbrev DhtOption := Nat

/-- The `DHT` struct of `pkg/discovery/dht.go`. The embedded `*dht.IpfsDHT` pointer is
`none` when nil. -/
structure DHT where
  OTPKey : String
  OTPInterval : Int
  KeyLength : Int
  RendezvousString : String
  BootstrapPeers : List Multiaddr
  latestRendezvous : String
  RefreshDiscoveryTime : Int
  IpfsDHT : Option IpfsDHT
  dhtOptions : List DhtOption
  deriving DecidableEq, Repr

/-- `NewDHT(d ...dht.Option)`: every field zero but the options. -/
def NewDHT (o : List DhtOption) : DHT :=
  { OTPKey := "", OTPInterval := 0, KeyLength := 0, RendezvousString := "",
    BootstrapPeers := [], latestRendezvous := "", RefreshDiscoveryTime := 0,
    IpfsDHT := none, dhtOptions := o }

/-! ## Channels and the producer goroutine of `FindClosePeers` -/

/-- A channel statement reached by the producer goroutine. -/
inductive ChanOp where
  | send (a : AddrInfo)
  | close
  deriving DecidableEq, Repr

/-- How far a goroutine got: still executing (at the end: returned normally), stopped by a
panic, or parked forever on a send that no buffer slot can take. -/
inductive Status where
  | running
  | panicked (p : GoPanic)
  | blocked
  deriving DecidableEq, Repr

/-- A buffered `chan peer.AddrInfo`. `buf` holds every value delivered so far, in order;
no receiver is assumed, so a send needs a free buffer slot. -/
structure Chan where
  cap : Nat
  buf : List AddrInfo
  closed : Bool
  deriving DecidableEq, Repr

/-- The producer goroutine: its channel, the channel statements it reached (in order,
the failing one included) and its status. Once the status is no longer `running` the
goroutine has stopped, and the statements after that point change nothing. -/
structure Producer where
  peerChan : Chan
  ops : List ChanOp
  status : Status
  deriving DecidableEq, Repr

/-- A panic raised by a non-channel statement. -/
def Producer.panic (g : Producer) (p : GoPanic) : Producer :=
  match g.status with
  | .running => { g with status := .panicked p }
  | _ => g

/-- The statement `peerChan <- a`. -/
def Producer.send (g : Producer) (a : AddrInfo) : Producer :=
  match g.status with
  | .running =>
    if g.peerChan.closed then
      { g with ops := g.ops ++ [.send a], status := .panicked .sendOnClosedChannel }
    else if g.peerChan.buf.length < g.peerChan.cap then
      { g with ops := g.ops ++ [.send a],
               peerChan := { g.peerChan with buf := g.peerChan.buf ++ [a] } }
    else
      { g with ops := g.ops ++ [.send a], status := .blocked }
  | _ => g

/-- The statement `close(peerChan)`. -/
def Producer.close (g : Producer) : Producer :=
  match g.status with
  | .running =>
    if g.peerChan.closed then
      { g with ops := g.ops ++ [.close], status := .panicked .closeOfClosedChannel }
    else
      { g with ops := g.ops ++ [.close], peerChan := { g.peerChan with closed := true } }
  | _ => g

/-- What `FindClosePeers` consumes from libp2p: the DHT instance's own identity, the
closest-peers query (result slice and error), the peerstore and the relay-string parser
(`none` when `peer.AddrInfoFromString` returns an error). -/
structure Libp2p where
  PeerID : IpfsDHT → EdgeVPN.PeerID
  GetClosestPeers : IpfsDHT → String → List EdgeVPN.PeerID × Option GoError
  Addrs : IpfsDHT → EdgeVPN.PeerID → List Multiaddr
  AddrInfoFromString : String → Option AddrInfo

/-- The body of `for _, p := range closestPeers`. -/
def closeStep (x : Libp2p) (kad : IpfsDHT) (toStream : List AddrInfo) (p : PeerID) :
    List AddrInfo :=
  let addrs := x.Addrs kad p
  if addrs.length = 0 then toStream
  else toStream ++ [{ ID := p, Addrs := addrs }]

/-- The body of `for _, r := range static`. -/
def staticStep (x : Libp2p) (toStream : List AddrInfo) (r : String) : List AddrInfo :=
  match x.AddrInfoFromString r with
  | some pi => toStream ++ [{ ID := pi.ID, Addrs := pi.Addrs }]
  | none => toStream

/-- The first half of the producer goroutine (up to the end of the static-relay loop):
the producer state and the `toStream` slice it has built. -/
def collect (x : Libp2p) (d : DHT) (onlyStaticRelays : Bool) (static : List String)
    (g : Producer) : Producer × List AddrInfo :=
  let toStream : List AddrInfo := []
  let (g, toStream) :=
    if !onlyStaticRelays then
      match d.IpfsDHT with
      | none => (g.panic .nilDereference, toStream)
      | some kad =>
        let (closestPeers, err) := x.GetClosestPeers kad (x.PeerID kad)
        let g := if err.isSome then g.close else g
        (g, closestPeers.foldl (closeStep x kad) toStream)
    else (g, toStream)
  (g, static.foldl (staticStep x) toStream)

/-- The second half of the producer goroutine: the truncation
`if len(toStream) > numPeers { toStream = toStream[0 : numPeers-1] }`, the sends and the
final `close(peerChan)`. -/
def truncateAndStream (numPeers : Int) (g : Producer) (toStream : List AddrInfo) : Producer :=
  let (g, toStream) :=
    if (toStream.length : Int) > numPeers then
      if numPeers - 1 < 0 then (g.panic .sliceBoundsOutOfRange, toStream)
      else (g, toStream.take (numPeers - 1).toNat)
    else (g, toStream)
  let g := toStream.foldl Producer.send g
  g.close

/-- The goroutine started by the function that `FindClosePeers` returns, run from the
producer state `g`. -/
def producer (x : Libp2p) (d : DHT) (onlyStaticRelays : Bool) (static : List String)
    (numPeers : Int) (g : Producer) : Producer :=
  let (g, toStream) := collect x d onlyStaticRelays static g
  truncateAndStream numPeers g toStream

/-- The function returned by `FindClosePeers(ll, onlyStaticRelays, static...)`, applied to
`numPeers`: `make(chan peer.AddrInfo, numPeers)` panics in the caller for a negative size;
otherwise the result is the final state of the producer goroutine. -/
def FindClosePeers (x : Libp2p) (d : DHT) (onlyStaticRelays : Bool) (static : List String)
    (numPeers : Int) : Except GoPanic Producer :=
  if numPeers < 0 then .error .makechanSizeOutOfRange
  else
    .ok (producer x d onlyStaticRelays static numPeers
      { peerChan := { cap := numPeers.toNat, buf := [], closed := false },
        ops := [], status := .running })

/-- The sequence a consumer of the returned channel can receive. -/
def streamed (r : Except GoPanic Producer) : List AddrInfo :=
  match r with
  | .ok g => g.peerChan.buf
  | .error _ => []

/-- The DHT's closest peers that have at least one known address, in query order. -/
def closeWithAddrs (x : Libp2p) (d : DHT) : List AddrInfo :=
  match d.IpfsDHT with
  | none => []
  | some kad =>
    (((x.GetClosestPeers kad (x.PeerID kad)).1).filter
      (fun p => decide (x.Addrs kad p ≠ []))).map
      (fun p => { ID := p, Addrs := x.Addrs kad p })

/-- The static relays that parse, in configuration order. -/
def parsableRelays (x : Libp2p) (static : List String) : List AddrInfo :=
  static.filterMap x.AddrInfoFromString

/-- The combined list: close peers with an address (unless static-only), then the
parsable static relays. -/
def combinedList (x : Libp2p) (d : DHT) (onlyStaticRelays : Bool) (static : List String) :
    List AddrInfo :=
  (if onlyStaticRelays then [] else closeWithAddrs x d) ++ parsableRelays x static

/-- A small libp2p environment: instance 0 is peer `self`; the query finds `a` (one
address) and `b` (no address); relay strings `relay1`..`relay3` parse, others do not. -/
def demoLibp2p (queryErr : Option GoError) : Libp2p where
  PeerID := fun _ => "self"
  GetClosestPeers := fun _ _ => (if queryErr.isSome then [] else ["a", "b"], queryErr)
  Addrs := fun _ p => if p = "a" then ["/ip4/10.0.0.1/tcp/4001"] else []
  AddrInfoFromString := fun r =>
    if r = "relay1" then some ⟨"r1", ["/ip4/10.0.1.1/tcp/4001"]⟩
    else if r = "relay2" then some ⟨"r2", ["/ip4/10.0.1.2/tcp/4001"]⟩
    else if r = "relay3" then some ⟨"r3", ["/ip4/10.0.1.3/tcp/4001"]⟩
    else none

/-- A started DHT (instance 0) with default fields. -/
def demoDHT : DHT := { NewDHT [] with IpfsDHT := some 0 }

/-! ## Rendezvous, bootstrap and the discovery loop -/

/-- What `Rendezvous` takes from outside this package. `base32Decode` is
`base32.StdEncoding.DecodeString` on the secret padded with `=` to a multiple of eight
characters (`none` when it returns an error); `hmacCode key digits input` is the rest of
gotp's `generateOTP` (HMAC of the counter under the key, truncation to `digits` digits,
formatting), which may itself panic; `MD5` is the helper of `pkg/crypto` (hex
fingerprint). -/
structure Crypto where
  base32Decode : String → Option (List Nat)
  hmacCode : List Nat → Int → Int → Except GoPanic String
  MD5 : String → String

/-- The third-party `gotp` call `(o *OTP) generateOTP(input)` for an OTP built from
`secret` and `digits`: it panics on a negative input and when the secret does not decode
as base32. -/
def generateOTP (c : Crypto) (secret : String) (digits input : Int) : Except GoPanic String :=
  if input < 0 then .error (.explicit "input must be positive integer")
  else
    match c.base32Decode secret with
    | none => .error (.explicit "decode secret failed")
    | some key => c.hmacCode key digits input

/-- The third-party `gotp` call `NewTOTP(secret, digits, interval, nil).At(timestamp)`:
`generateOTP(timestamp / interval)`, Go's integer division panicking on a zero interval.
`Now()` is `At` of the current Unix time. -/
def TOTPAt (c : Crypto) (secret : String) (digits interval timestamp : Int) :
    Except GoPanic String :=
  if interval = 0 then .error .integerDivideByZero
  else generateOTP c secret digits (Int.tdiv timestamp interval)

/-- A call made to an external collaborator, in program order. -/
inductive Event where
  | dhtNew
  | dhtBootstrap (kad : IpfsDHT)
  | connect (p : AddrInfo) (err : Option GoError)
  | advertise (kad : IpfsDHT) (rv : String)
  | findPeers (kad : IpfsDHT) (rv : String)
  deriving DecidableEq, Repr

/-- The host and DHT capabilities the discovery code consumes, over a state `W` of the
outside world (connections, routing table, clock). `Connectedness` is `true` exactly for
`network.Connected`; `AddrInfoFromP2pAddr` is the returned pointer, `none` when it is nil
(as it is whenever the library reports an error); `New` is `dht.New`. -/
structure Net (W : Type) where
  ID : PeerID
  Connectedness : W → PeerID → Bool
  Connect : W → AddrInfo → W × Option GoError
  AddrInfoFromP2pAddr : Multiaddr → Option AddrInfo
  DefaultBootstrapPeers : List Multiaddr
  New : W → List DhtOption → W × Except GoError IpfsDHT
  Bootstrap : W → IpfsDHT → W × Option GoError
  Advertise : W → IpfsDHT → String → W
  FindPeers : W → IpfsDHT → String → W × Except GoError (List AddrInfo)
  UnixNow : W → Int

/-- `(d *DHT) Rendezvous()`, with the clock reading `now`: the returned string and the
receiver afterwards, or the panic raised by `totp.Now()`. -/
def Rendezvous (c : Crypto) (now : Int) (d : DHT) : Except GoPanic (String × DHT) :=
  if d.OTPKey ≠ "" then
    match TOTPAt c d.OTPKey d.KeyLength d.OTPInterval now with
    | .error p => .error p
    | .ok code =>
      let rv := c.MD5 code
      .ok (rv, { d with latestRendezvous := rv })
  else
    .ok (d.RendezvousString, d)

/-- `(d *DHT) startDHT(ctx, h)`: the receiver and the world afterwards, the external calls
made, and the returned pair `(*dht.IpfsDHT, error)`. -/
def startDHT {W : Type} (api : Net W) (d : DHT) (w : W) :
    DHT × W × List Event × (Option IpfsDHT × Option GoError) :=
  match d.IpfsDHT with
  | none =>
    match api.New w d.dhtOptions with
    | (w1, .error err) => (d, w1, [.dhtNew], (d.IpfsDHT, some err))
    | (w1, .ok kad) =>
      let d1 := { d with IpfsDHT := some kad }
      (d1, w1, [.dhtNew], (d1.IpfsDHT, none))
  | some _ => (d, w, [], (d.IpfsDHT, none))

/-- `(d *DHT) Option(ctx)`: the routing constructor handed to libp2p, which calls
`startDHT` with the host it is given. -/
def DHT.Option {W : Type} (api : Net W) (d : DHT) (w : W) :
    DHT × W × List Event × (Option EdgeVPN.IpfsDHT × Option GoError) :=
  startDHT api d w

/-- The goroutine body of `bootstrapPeers` for one address: `peerinfo` is the pointer
returned by `peer.AddrInfoFromP2pAddr`, whose error the caller discarded. -/
def bootstrapWorker {W : Type} (api : Net W) (peerinfo : Option AddrInfo)
    (s : W × List Event) : Except GoPanic (W × List Event) :=
  match peerinfo with
  | none => .error .nilDereference
  | some pi =>
    if api.Connectedness s.1 pi.ID != true then
      let r := api.Connect s.1 pi
      .ok (r.1, s.2 ++ [.connect pi r.2])
    else .ok s

/-- `(d *DHT) bootstrapPeers(c, ctx, host)`, with the goroutines scheduled in the order
they are started; `wg.Wait()` returns once all of them are done. A panic in any goroutine
ends the process. -/
def bootstrapPeers {W : Type} (api : Net W) (d : DHT) (w : W) :
    Except GoPanic (W × List Event) :=
  d.BootstrapPeers.foldlM
    (fun s peerAddr => bootstrapWorker api (api.AddrInfoFromP2pAddr peerAddr) s) (w, [])

/-- The body of `for p := range peerChan` in `announceAndConnect`. -/
def dialStep {W : Type} (api : Net W) (s : W × List Event) (p : AddrInfo) : W × List Event :=
  if p.ID = api.ID ∨ p.Addrs.length = 0 then s
  else if api.Connectedness s.1 p.ID != true then
    let r := api.Connect s.1 p
    (r.1, s.2 ++ [.connect p r.2])
  else s

/-- `(d *DHT) announceAndConnect(l, ctx, kademliaDHT, host, rv)`: the world afterwards, the
external calls made and the returned error. The stream returned by `FindPeers` is read to
its end. -/
def announceAndConnect {W : Type} (api : Net W) (kademliaDHT : IpfsDHT) (rv : String)
    (w : W) : W × List Event × Option GoError :=
  let w := api.Advertise w kademliaDHT rv
  match api.FindPeers w kademliaDHT rv with
  | (w, .error err) => (w, [.advertise kademliaDHT rv, .findPeers kademliaDHT rv], some err)
  | (w, .ok peerChan) =>
    let s := peerChan.foldl (dialStep api)
      (w, [.advertise kademliaDHT rv, .findPeers kademliaDHT rv])
    (s.1, s.2, none)

/-- The middle of the `connect` closure of `Run`: `if d.latestRendezvous != ""` the round
under the previous key, started in world `w1`. Returns the world afterwards and the
external calls made (none when there is no previous key). -/
def previousKeyRound {W : Type} (api : Net W) (kademliaDHT : IpfsDHT) (d : DHT) (w1 : W) :
    W × List Event :=
  if d.latestRendezvous ≠ "" then
    let r := announceAndConnect api kademliaDHT d.latestRendezvous w1
    (r.1, r.2.1)
  else (w1, [])

/-- The `connect` closure of `Run`: one connect cycle, started in world `w`. Returns the
receiver and world afterwards and the external calls of the three phases: bootstrap dials,
the round under the previous key (empty when there is none), the round under the current
key. A panic in `bootstrapPeers` or in `Rendezvous` ends the process. -/
def connect {W : Type} (api : Net W) (c : Crypto) (kademliaDHT : IpfsDHT) (d : DHT) (w : W) :
    Except GoPanic (DHT × W × List Event × List Event × List Event) :=
  match bootstrapPeers api d w with
  | .error p => .error p
  | .ok (w1, ev1) =>
    let r2 := previousKeyRound api kademliaDHT d w1
    match Rendezvous c (api.UnixNow r2.1) d with
    | .error p => .error p
    | .ok (rv, d1) =>
      let r3 := announceAndConnect api kademliaDHT rv r2.1
      .ok (d1, r3.1, ev1, r2.2, r3.2.1)

/-- The goroutine started by `Run`: `connect()` once at start and once per ticker event
until cancellation. `ws` lists the world at the start of each cycle (the first entry is the
immediate cycle); the result lists, per cycle, the calls of its three phases. -/
def discoveryLoop {W : Type} (api : Net W) (c : Crypto) (kademliaDHT : IpfsDHT) :
    DHT → List W → Except GoPanic (DHT × List (List Event × List Event × List Event))
  | d, [] => .ok (d, [])
  | d, w :: ws =>
    match connect api c kademliaDHT d w with
    | .error p => .error p
    | .ok (d1, _, ev1, ev2, ev3) =>
      match discoveryLoop api c kademliaDHT d1 ws with
      | .error p => .error p
      | .ok (d2, rest) => .ok (d2, (ev1, ev2, ev3) :: rest)

/-- What `Run` leaves behind: the receiver and world, the external calls made before it
returns, the returned error, and the DHT instance captured by the discovery goroutine when
one was started. -/
structure RunResult (W : Type) where
  d : DHT
  w : W
  events : List Event
  err : Option GoError
  loop : Option IpfsDHT

/-- `(d *DHT) Run(c, ctx, host)` up to its return (the discovery goroutine it starts is
`discoveryLoop`). -/
def Run {W : Type} (api : Net W) (d : DHT) (w : W) : Except GoPanic (RunResult W) :=
  let d := if d.KeyLength = 0 then { d with KeyLength := 12 } else d
  let d := if d.BootstrapPeers.length = 0 then
    { d with BootstrapPeers := api.DefaultBootstrapPeers } else d
  match startDHT api d w with
  | (d, w, ev, (_, some err)) => .ok { d := d, w := w, events := ev, err := some err, loop := none }
  | (_, _, _, (none, none)) => .error .nilDereference
  | (d, w, ev, (some kademliaDHT, none)) =>
    match api.Bootstrap w kademliaDHT with
    | (w, some err) =>
      .ok { d := d, w := w, events := ev ++ [.dhtBootstrap kademliaDHT], err := some err,
            loop := none }
    | (w, none) =>
      .ok { d := d, w := w, events := ev ++ [.dhtBootstrap kademliaDHT], err := none,
            loop := some kademliaDHT }

/-- The rendezvous keys advertised in a list of calls, in order. -/
def advertised : List Event → List String
  | [] => []
  | .advertise _ rv :: es => rv :: advertised es
  | _ :: es => advertised es

/-- The rendezvous keys searched in a list of calls, in order. -/
def searched : List Event → List String
  | [] => []
  | .findPeers _ rv :: es => rv :: searched es
  | _ :: es => searched es

/-- The peers dialled in a list of calls, in order. -/
def dialled : List Event → List AddrInfo
  | [] => []
  | .connect p _ :: es => p :: dialled es
  | _ :: es => dialled es

/-- The results of a search that have to be dialled, following the stream from world `w`:
a result is dialled when it is not the local peer, has an address and is not connected
when its turn comes. -/
def expectedDials {W : Type} (api : Net W) : W → List AddrInfo → List AddrInfo
  | _, [] => []
  | w, p :: ps =>
    if p.ID ≠ api.ID ∧ p.Addrs ≠ [] ∧ api.Connectedness w p.ID = false then
      p :: expectedDials api (api.Connect w p).1 ps
    else expectedDials api w ps

/-- A small world: the list of connected peers. Peer `me` is the host; dialling peer
`down` fails, any other dial succeeds; two bootstrap addresses carry a peer identity and
resolve, any other address (such as a bare transport address) does not; a search returns
five results whatever the key. -/
def demoNet : Net (List PeerID) where
  ID := "me"
  Connectedness := fun w p => decide (p ∈ w)
  Connect := fun w p => if p.ID = "down" then (w, some "dial failed") else (p.ID :: w, none)
  AddrInfoFromP2pAddr := fun a =>
    if a = "/ip4/10.0.0.1/tcp/4001/p2p/b1" then some ⟨"b1", ["/ip4/10.0.0.1/tcp/4001"]⟩
    else if a = "/ip4/10.0.0.2/tcp/4001/p2p/b2" then some ⟨"b2", ["/ip4/10.0.0.2/tcp/4001"]⟩
    else none
  DefaultBootstrapPeers := ["/ip4/10.0.0.1/tcp/4001/p2p/b1", "/ip4/10.0.0.2/tcp/4001/p2p/b2"]
  New := fun w _ => (w, .ok 7)
  Bootstrap := fun w _ => (w, none)
  Advertise := fun w _ _ => w
  FindPeers := fun w _ _ =>
    (w, .ok [⟨"me", ["/ip4/10.0.0.9"]⟩, ⟨"down", ["/ip4/10.0.0.5"]⟩, ⟨"noaddr", []⟩,
             ⟨"p1", ["/ip4/10.0.0.3"]⟩, ⟨"b1", ["/ip4/10.0.0.1/tcp/4001"]⟩])
  UnixNow := fun w => 1000 + 30 * w.length

/-- A stand-in for the helpers: a secret decodes when it is written in the base32
alphabet (`A`-`Z`, `2`-`7`) with a length that base32 admits, to its character codes; the
code names the sum of the key bytes and the time step; the fingerprint prepends a tag (so
it is never empty). -/
def demoCrypto : Crypto where
  base32Decode := fun s =>
    if s.toList.all (fun ch => decide (('A' ≤ ch ∧ ch ≤ 'Z') ∨ ('2' ≤ ch ∧ ch ≤ '7')))
        && decide (s.length % 8 ∈ [0, 2, 4, 5, 7]) then
      some (s.toList.map Char.toNat)
    else none
  hmacCode := fun key _ input => .ok ("otp" ++ toString key.sum ++ "-" ++ toString input)
  MD5 := fun s => "md5:" ++ s

/-! ## `Config.Apply` -/

/-- Go `type Option func(cfg *Config) error`: the configuration after the call (options
mutate it in place) and the returned error. -/
abbrev NodeOption (Cfg : Type) := Cfg → Cfg × Option GoError

/-- `(cfg *Config) Apply(opts ...Option)`: the configuration afterwards and the returned
error. A nil entry of `opts` is `none`. -/
def Config.Apply {Cfg : Type} (cfg : Cfg) :
    List (Option (NodeOption Cfg)) → Cfg × Option GoError
  | [] => (cfg, none)
  | none :: opts => Config.Apply cfg opts
  | some opt :: opts =>
    match opt cfg with
    | (cfg1, some err) => (cfg1, some err)
    | (cfg1, none) => Config.Apply cfg1 opts

/-- The configuration obtained by applying every non-nil option once, in order. -/
def Config.applyEach {Cfg : Type} (cfg : Cfg) (opts : List (Option (NodeOption Cfg))) :
    Cfg :=
  (opts.filterMap id).foldl (fun c opt => (opt c).1) cfg

/-- A configuration for the demonstrations: the names of the options applied so far. -/
abbrev DemoConfig := List String

/-- An option that records its name and succeeds. -/
def okOption (name : String) : NodeOption DemoConfig :=
  fun cfg => (cfg ++ [name], none)

/-- An option that records its name and fails. -/
def failingOption (name : String) : NodeOption DemoConfig :=
  fun cfg => (cfg ++ [name], some ("cannot apply " ++ name))

/-- A DHT with a rotating secret, two resolvable bootstrap addresses and a started
instance. -/
def demoRotating : DHT :=
  { NewDHT [] with OTPKey := "JBSWY3DPEHPK3PXP", OTPInterval := 30, KeyLength := 12,
                   BootstrapPeers := ["/ip4/10.0.0.1/tcp/4001/p2p/b1",
                                      "/ip4/10.0.0.2/tcp/4001/p2p/b2"],
                   IpfsDHT := some 7 }

/-! ## Ledger (contract of `pkg/blockchain`, exercised by the services tests) -/

/-- Modelled from the spec: the ledger `Entry` of `pkg/blockchain` (a value with its
`LastUpdated` timestamp and optional `ExpiresAt`), which is not among the sources. -/
structure Entry where
  Value : String
  LastUpdated : Nat
  ExpiresAt : Option Nat
  deriving DecidableEq, Repr

/-- Modelled from the spec: a block's `Storage` in `pkg/blockchain`, a mapping from bucket
name to a mapping from key to entry, kept as association lists. -/
abbrev Storage := List (String × List (String × Entry))

/-- Modelled from the spec: the `Block` of `pkg/blockchain`, an index with a complete
snapshot of the storage. -/
structure Block where
  Index : Nat
  Storage : Storage
  deriving DecidableEq, Repr

/-- Modelled from the spec: the `Ledger` of `pkg/blockchain`, an append-only sequence of
blocks in commit order. -/
structure Ledger where
  blocks : List Block
  deriving DecidableEq, Repr

/-- Modelled from the spec: the failure of `Persist` in `pkg/blockchain`. -/
inductive LedgerError where
  | Timeout
  deriving DecidableEq, Repr

/-- Modelled from the spec: setting `key` in a bucket's key/entry mapping. -/
def setKey (key : String) (e : Entry) : List (String × Entry) → List (String × Entry)
  | [] => [(key, e)]
  | (k, v) :: rest => if k = key then (key, e) :: rest else (k, v) :: setKey key e rest

/-- Modelled from the spec: `storage[bucket][key] = entry` on a copy of the storage, every
other bucket and key carried forward. -/
def setEntry (bucket key : String) (e : Entry) : Storage → Storage
  | [] => [(bucket, [(key, e)])]
  | (b, kvs) :: rest =>
    if b = bucket then (b, setKey key e kvs) :: rest
    else (b, kvs) :: setEntry bucket key e rest

/-- Modelled from the spec: `LastBlock()` of `pkg/blockchain`, the highest-index block
known locally (the empty block of index 0 before any commit). -/
def LastBlock (l : Ledger) : Block :=
  l.blocks.foldl (fun best b => if best.Index < b.Index then b else best)
    { Index := 0, Storage := [] }

/-- Modelled from the spec: `Persist(ctx, writeTimeout, ttl, bucket, key, value)` of
`pkg/blockchain`. It proposes a block that copies the latest block's storage with
`storage[bucket][key]` set to `{value, now, now+ttl}`, under the next index of the
monotonic counter; `committed` says whether a commit acknowledgment arrives within
`writeTimeout`. Without one the call fails with `Timeout` and the ledger is unchanged. -/
def Persist (l : Ledger) (committed : Bool) (now ttl : Nat) (bucket key value : String) :
    Except LedgerError Ledger :=
  if committed then
    let last := LastBlock l
    .ok { blocks := l.blocks ++
            [{ Index := last.Index + 1,
               Storage := setEntry bucket key
                 { Value := value, LastUpdated := now, ExpiresAt := some (now + ttl) }
                 last.Storage }] }
  else .error .Timeout

/-- The arguments of one `Persist` call. -/
structure PersistCall where
  committed : Bool
  now : Nat
  ttl : Nat
  bucket : String
  key : String
  value : String
  deriving DecidableEq, Repr

/-- A sequence of `Persist` calls on a ledger, a failed call leaving the ledger as it was:
the ledger after the last call and `LastBlock().Index` as read after each successful call. -/
def persistAll : Ledger → List PersistCall → Ledger × List Nat
  | l, [] => (l, [])
  | l, c :: cs =>
    match Persist l c.committed c.now c.ttl c.bucket c.key c.value with
    | .ok l1 =>
      let r := persistAll l1 cs
      (r.1, (LastBlock l1).Index :: r.2)
    | .error _ => persistAll l cs
/-! ## Lemmas on the producer -/

theorem foldl_closeStep (x : Libp2p) (kad : IpfsDHT) (l : List PeerID) (acc : List AddrInfo) :
    l.foldl (closeStep x kad) acc
      = acc ++ (l.filter (fun p => decide (x.Addrs kad p ≠ []))).map
          (fun p => { ID := p, Addrs := x.Addrs kad p }) := by
  induction l generalizing acc with
  | nil => simp
  | cons p ps ih =>
    rw [List.foldl_cons, ih]
    by_cases h : x.Addrs kad p = []
    · simp [closeStep, h]
    · have hl : (x.Addrs kad p).length ≠ 0 := by
        intro h0
        exact h (List.length_eq_zero.mp h0)
      simp [closeStep, h, hl]

theorem foldl_staticStep (x : Libp2p) (l : List String) (acc : List AddrInfo) :
    l.foldl (staticStep x) acc = acc ++ l.filterMap x.AddrInfoFromString := by
  induction l generalizing acc with
  | nil => simp
  | cons r rs ih =>
    rw [List.foldl_cons, ih]
    cases h : x.AddrInfoFromString r with
    | none => simp [staticStep, h]
    | some pi => simp [staticStep, h]

theorem sends_not_running (l : List AddrInfo) (g : Producer) (h : g.status ≠ .running) :
    l.foldl Producer.send g = g := by
  induction l with
  | nil => rfl
  | cons a as ih =>
    have hs : g.send a = g := by
      unfold Producer.send
      cases hst : g.status with
      | running => exact absurd hst h
      | panicked p => rfl
      | blocked => rfl
    rw [List.foldl_cons, hs, ih]

theorem sends_fit (l : List AddrInfo) (g : Producer) (hr : g.status = .running)
    (hc : g.peerChan.closed = false)
    (hcap : g.peerChan.buf.length + l.length ≤ g.peerChan.cap) :
    l.foldl Producer.send g
      = { peerChan := { g.peerChan with buf := g.peerChan.buf ++ l },
          ops := g.ops ++ l.map ChanOp.send, status := .running } := by
  induction l generalizing g with
  | nil =>
    obtain ⟨c, o, st⟩ := g
    simp at hr
    simp [hr]
  | cons a as ih =>
    obtain ⟨⟨cap, buf, closed⟩, ops, st⟩ := g
    simp only at hr hc hcap
    subst hr hc
    simp only [List.length_cons] at hcap
    have hlt : buf.length < cap := by omega
    have hs : Producer.send ⟨⟨cap, buf, false⟩, ops, .running⟩ a
        = ⟨⟨cap, buf ++ [a], false⟩, ops ++ [.send a], .running⟩ := by
      simp [Producer.send, hlt]
    rw [List.foldl_cons, hs, ih _ rfl rfl]
    · simp
    · simp only [List.length_append, List.length_cons, List.length_nil]
      omega

theorem send_buf_length_le (g : Producer) (a : AddrInfo) :
    (g.send a).peerChan.buf.length ≤ g.peerChan.buf.length + 1 := by
  unfold Producer.send
  split
  · split
    · simp
    · split <;> simp
  · simp

theorem sends_buf_length_le (l : List AddrInfo) (g : Producer) :
    (l.foldl Producer.send g).peerChan.buf.length ≤ g.peerChan.buf.length + l.length := by
  induction l generalizing g with
  | nil => simp
  | cons a as ih =>
    rw [List.foldl_cons]
    have h1 := ih (g.send a)
    have h2 := send_buf_length_le g a
    simp only [List.length_cons]
    omega

theorem close_buf (g : Producer) : g.close.peerChan.buf = g.peerChan.buf := by
  unfold Producer.close
  split
  · split <;> rfl
  · rfl

theorem panic_buf (g : Producer) (p : GoPanic) : (g.panic p).peerChan.buf = g.peerChan.buf := by
  unfold Producer.panic
  split <;> rfl

theorem collect_static (x : Libp2p) (d : DHT) (static : List String) (g : Producer) :
    collect x d true static g = (g, combinedList x d true static) := by
  simp [collect, combinedList, parsableRelays, foldl_staticStep]

theorem collect_nil (x : Libp2p) (d : DHT) (static : List String) (g : Producer)
    (hk : d.IpfsDHT = none) :
    collect x d false static g
      = (g.panic .nilDereference, combinedList x d false static) := by
  simp [collect, combinedList, closeWithAddrs, parsableRelays, foldl_staticStep, hk]

theorem collect_started (x : Libp2p) (d : DHT) (static : List String) (g : Producer)
    (kad : IpfsDHT) (hk : d.IpfsDHT = some kad) :
    collect x d false static g
      = (if ((x.GetClosestPeers kad (x.PeerID kad)).2).isSome then g.close else g,
         combinedList x d false static) := by
  simp [collect, combinedList, closeWithAddrs, parsableRelays, foldl_staticStep,
    foldl_closeStep, hk]

theorem truncateAndStream_fits (numPeers : Int) (g : Producer) (toStream : List AddrInfo)
    (h : (toStream.length : Int) ≤ numPeers) :
    truncateAndStream numPeers g toStream = (toStream.foldl Producer.send g).close := by
  have hnot : ¬ ((toStream.length : Int) > numPeers) := by omega
  simp [truncateAndStream, hnot]

theorem truncateAndStream_buf_length (numPeers : Int) (g : Producer)
    (toStream : List AddrInfo) (h : 1 ≤ numPeers) :
    ((truncateAndStream numPeers g toStream).peerChan.buf.length : Int)
        ≤ g.peerChan.buf.length + numPeers
      ∧ ((toStream.length : Int) ≠ numPeers →
          ((truncateAndStream numPeers g toStream).peerChan.buf.length : Int)
            ≤ g.peerChan.buf.length + (numPeers - 1)) := by
  by_cases hgt : (toStream.length : Int) > numPeers
  · have h0 : ¬ (numPeers - 1 < 0) := by omega
    have hb := sends_buf_length_le (toStream.take (numPeers - 1).toNat) g
    have ht : (toStream.take (numPeers - 1).toNat).length ≤ (numPeers - 1).toNat :=
      List.length_take_le _ _
    simp only [truncateAndStream, hgt, h0, if_true, if_false, close_buf]
    omega
  · have hb := sends_buf_length_le toStream g
    simp only [truncateAndStream, hgt, if_false, close_buf]
    constructor
    · omega
    · intro hne
      omega

theorem collect_snd (x : Libp2p) (d : DHT) (onlyStaticRelays : Bool) (static : List String)
    (g : Producer) :
    (collect x d onlyStaticRelays static g).2 = combinedList x d onlyStaticRelays static := by
  cases onlyStaticRelays with
  | true => rw [collect_static]
  | false =>
    cases hk : d.IpfsDHT with
    | none => rw [collect_nil x d static g hk]
    | some kad => rw [collect_started x d static g kad hk]

theorem collect_fst_buf (x : Libp2p) (d : DHT) (onlyStaticRelays : Bool)
    (static : List String) (g : Producer) :
    (collect x d onlyStaticRelays static g).1.peerChan.buf = g.peerChan.buf := by
  cases onlyStaticRelays with
  | true => rw [collect_static]
  | false =>
    cases hk : d.IpfsDHT with
    | none => rw [collect_nil x d static g hk, panic_buf]
    | some kad =>
      rw [collect_started x d static g kad hk]
      dsimp only
      split
      · exact close_buf g
      · rfl

/-! ## Close-peer finder: claims -/

/-- C1, as stated, fails: with `numPeers = 1` and one parsable static relay (static-only
mode) the combined list has exactly `numPeers` entries, the test `len(toStream) > numPeers`
is false, and one entry is streamed, which is more than `numPeers - 1 = 0`. -/
theorem FindClosePeers_streams_numPeers_entries :
    ¬ (((streamed (FindClosePeers (demoLibp2p none) demoDHT true ["relay1"] 1)).length : Int)
        ≤ 1 - 1) := by
  decide

/-- C1 (amended): for every requested count `numPeers ≥ 1`, every DHT result and every
static relay list, the streamed sequence has at most `numPeers` entries, and at most
`numPeers - 1` entries unless the combined list has exactly `numPeers` entries. -/
theorem FindClosePeers_stream_length_le (x : Libp2p) (d : DHT) (onlyStaticRelays : Bool)
    (static : List String) (numPeers : Int) (h : 1 ≤ numPeers) :
    ((streamed (FindClosePeers x d onlyStaticRelays static numPeers)).length : Int) ≤ numPeers
      ∧ (((combinedList x d onlyStaticRelays static).length : Int) ≠ numPeers →
          ((streamed (FindClosePeers x d onlyStaticRelays static numPeers)).length : Int)
            ≤ numPeers - 1) := by
  have hneg : ¬ numPeers < 0 := by omega
  have hb := truncateAndStream_buf_length numPeers
    (collect x d onlyStaticRelays static
      { peerChan := { cap := numPeers.toNat, buf := [], closed := false },
        ops := [], status := .running }).1
    (collect x d onlyStaticRelays static
      { peerChan := { cap := numPeers.toNat, buf := [], closed := false },
        ops := [], status := .running }).2 h
  rw [collect_fst_buf, collect_snd] at hb
  simp only [FindClosePeers, hneg, if_false, streamed, producer]
  rw [collect_snd]
  simp only [List.length_nil, Nat.cast_zero, zero_add] at hb
  exact hb

/-- The amended C1 at `numPeers = 2` with three parsable static relays: the combined list
is longer than `numPeers`, and one entry is streamed. -/
theorem FindClosePeers_stream_length_le_witness :
    (1 : Int) ≤ 2 ∧
    (((streamed (FindClosePeers (demoLibp2p none) demoDHT true
        ["relay1", "relay2", "relay3"] 2)).length : Int) ≤ 2
      ∧ (((combinedList (demoLibp2p none) demoDHT true
            ["relay1", "relay2", "relay3"]).length : Int) ≠ 2 →
          ((streamed (FindClosePeers (demoLibp2p none) demoDHT true
            ["relay1", "relay2", "relay3"] 2)).length : Int) ≤ 2 - 1)) :=
  ⟨by decide,
   FindClosePeers_stream_length_le (demoLibp2p none) demoDHT true
     ["relay1", "relay2", "relay3"] 2 (by decide)⟩

/-- C2: when the DHT query succeeds (or static-only mode skips it) and the combined list
has at most `numPeers - 1` entries, the producer sends exactly the combined list in order,
then closes the channel and returns normally; in static-only mode or with an empty DHT
result the streamed sequence is exactly the parsable static relays. -/
theorem FindClosePeers_streams_combined (x : Libp2p) (d : DHT) (onlyStaticRelays : Bool)
    (static : List String) (numPeers : Int)
    (hq : onlyStaticRelays = true ∨ ∃ kad, d.IpfsDHT = some kad ∧
      (x.GetClosestPeers kad (x.PeerID kad)).2 = none)
    (hlen : ((combinedList x d onlyStaticRelays static).length : Int) ≤ numPeers - 1) :
    FindClosePeers x d onlyStaticRelays static numPeers
        = .ok { peerChan := { cap := numPeers.toNat,
                              buf := combinedList x d onlyStaticRelays static,
                              closed := true },
                ops := (combinedList x d onlyStaticRelays static).map ChanOp.send ++ [.close],
                status := .running }
      ∧ ((onlyStaticRelays = true ∨ ∃ kad, d.IpfsDHT = some kad ∧
            (x.GetClosestPeers kad (x.PeerID kad)).1 = []) →
          streamed (FindClosePeers x d onlyStaticRelays static numPeers)
            = parsableRelays x static) := by
  have hneg : ¬ numPeers < 0 := by omega
  have hcol : collect x d onlyStaticRelays static
      { peerChan := { cap := numPeers.toNat, buf := [], closed := false },
        ops := [], status := .running }
      = ({ peerChan := { cap := numPeers.toNat, buf := [], closed := false },
           ops := [], status := .running }, combinedList x d onlyStaticRelays static) := by
    rcases hq with h | ⟨kad, hk, he⟩
    · subst h
      rw [collect_static]
    · cases onlyStaticRelays with
      | true => rw [collect_static]
      | false =>
        rw [collect_started x d static _ kad hk, he]
        rfl
  have hfit : (combinedList x d onlyStaticRelays static).length ≤ numPeers.toNat := by
    omega
  have hmain : FindClosePeers x d onlyStaticRelays static numPeers
        = .ok { peerChan := { cap := numPeers.toNat,
                              buf := combinedList x d onlyStaticRelays static,
                              closed := true },
                ops := (combinedList x d onlyStaticRelays static).map ChanOp.send ++ [.close],
                status := .running } := by
    simp only [FindClosePeers, hneg, if_false, producer, hcol]
    rw [truncateAndStream_fits _ _ _ (by omega), sends_fit _ _ rfl rfl (by simpa using hfit)]
    simp [Producer.close]
  refine ⟨hmain, ?_⟩
  intro hempty
  rw [hmain]
  simp only [streamed]
  rcases hempty with h | ⟨kad, hk, he⟩
  · subst h
    simp [combinedList]
  · cases onlyStaticRelays with
    | true => simp [combinedList]
    | false => simp [combinedList, closeWithAddrs, hk, he]

/-- C2 at `numPeers = 5` with three parsable static relays (and one unparsable entry) in
static-only mode: exactly the three relays are streamed, then the channel is closed. -/
theorem FindClosePeers_streams_combined_witness :
    FindClosePeers (demoLibp2p none) demoDHT true ["relay1", "bogus", "relay2", "relay3"] 5
        = .ok { peerChan := { cap := 5,
                              buf := [⟨"r1", ["/ip4/10.0.1.1/tcp/4001"]⟩,
                                      ⟨"r2", ["/ip4/10.0.1.2/tcp/4001"]⟩,
                                      ⟨"r3", ["/ip4/10.0.1.3/tcp/4001"]⟩],
                              closed := true },
                ops := [.send ⟨"r1", ["/ip4/10.0.1.1/tcp/4001"]⟩,
                        .send ⟨"r2", ["/ip4/10.0.1.2/tcp/4001"]⟩,
                        .send ⟨"r3", ["/ip4/10.0.1.3/tcp/4001"]⟩, .close],
                status := .running } :=
  (FindClosePeers_streams_combined (demoLibp2p none) demoDHT true
    ["relay1", "bogus", "relay2", "relay3"] 5 (Or.inl rfl) (by decide)).1

/-- On a failed DHT query the producer never returns normally: after the first
`close(peerChan)` it runs on and panics, at the slice expression, at the first send or at
the final `close(peerChan)`. -/
theorem producer_query_error_panics (x : Libp2p) (d : DHT) (static : List String)
    (numPeers : Int) (kad : IpfsDHT) (e : GoError) (hk : d.IpfsDHT = some kad)
    (he : (x.GetClosestPeers kad (x.PeerID kad)).2 = some e) (cap : Nat) :
    ∃ p, (producer x d false static numPeers
      { peerChan := { cap := cap, buf := [], closed := false },
        ops := [], status := .running }).status = .panicked p := by
  simp only [producer, collect_started x d static _ kad hk, he, Option.isSome_some, if_true]
  generalize combinedList x d false static = l
  have hclose : Producer.close
      { peerChan := { cap := cap, buf := [], closed := false }, ops := [], status := .running }
      = { peerChan := { cap := cap, buf := [], closed := true }, ops := [.close],
          status := .running } := by
    simp [Producer.close]
  rw [hclose]
  unfold truncateAndStream
  by_cases hgt : (l.length : Int) > numPeers
  · by_cases h0 : numPeers - 1 < 0
    · refine ⟨.sliceBoundsOutOfRange, ?_⟩
      simp only [hgt, h0, if_true]
      rw [sends_not_running _ _ (by simp [Producer.panic])]
      simp [Producer.close, Producer.panic]
    · simp only [hgt, h0, if_true, if_false]
      cases hl : l.take (numPeers - 1).toNat with
      | nil => exact ⟨.closeOfClosedChannel, by simp [Producer.close]⟩
      | cons a as =>
        refine ⟨.sendOnClosedChannel, ?_⟩
        rw [List.foldl_cons, sends_not_running _ _ (by simp [Producer.send])]
        simp [Producer.close, Producer.send]
  · simp only [hgt, if_false]
    cases l with
    | nil => exact ⟨.closeOfClosedChannel, by simp [Producer.close]⟩
    | cons a as =>
      refine ⟨.sendOnClosedChannel, ?_⟩
      rw [List.foldl_cons, sends_not_running _ _ (by simp [Producer.send])]
      simp [Producer.close, Producer.send]

/-- C3 fails on the code: with a failing DHT query the producer closes the channel and
then runs on. With no static relay it reaches the final `close(peerChan)` a second time
(panic: close of closed channel); with a parsable static relay it reaches a send of that
relay on the closed channel (panic: send on closed channel). -/
theorem FindClosePeers_query_error_runs_on :
    FindClosePeers (demoLibp2p (some "context deadline exceeded")) demoDHT false [] 1
        = .ok { peerChan := { cap := 1, buf := [], closed := true },
                ops := [.close, .close],
                status := .panicked .closeOfClosedChannel }
      ∧ FindClosePeers (demoLibp2p (some "context deadline exceeded")) demoDHT false
          ["relay1"] 5
        = .ok { peerChan := { cap := 5, buf := [], closed := true },
                ops := [.close, .send ⟨"r1", ["/ip4/10.0.1.1/tcp/4001"]⟩],
                status := .panicked .sendOnClosedChannel } := by
  constructor <;> rfl

/-! ## Bootstrapper -/

theorem bootstrap_foldlM_ok {W : Type} (api : Net W) (l : List Multiaddr)
    (h : ∀ a ∈ l, api.AddrInfoFromP2pAddr a ≠ none) (s : W × List Event) :
    ∃ w1 ev, l.foldlM
        (fun s peerAddr => bootstrapWorker api (api.AddrInfoFromP2pAddr peerAddr) s) s
      = Except.ok (w1, s.2 ++ ev) ∧ advertised ev = [] ∧ searched ev = [] := by
  induction l generalizing s with
  | nil => exact ⟨s.1, [], by simp [pure, Except.pure], rfl, rfl⟩
  | cons a as ih =>
    have ha : api.AddrInfoFromP2pAddr a ≠ none := h a (List.mem_cons_self _ _)
    have has : ∀ b ∈ as, api.AddrInfoFromP2pAddr b ≠ none :=
      fun b hb => h b (List.mem_cons_of_mem _ hb)
    obtain ⟨pi, hpi⟩ := Option.ne_none_iff_exists'.mp ha
    rw [List.foldlM_cons, hpi]
    by_cases hc : api.Connectedness s.1 pi.ID = true
    · have hw : bootstrapWorker api (some pi) s = Except.ok s := by
        simp [bootstrapWorker, hc]
      rw [hw]
      exact ih has s
    · have hw : bootstrapWorker api (some pi) s
          = Except.ok ((api.Connect s.1 pi).1, s.2 ++ [.connect pi (api.Connect s.1 pi).2]) := by
        simp [bootstrapWorker, hc]
      rw [hw]
      obtain ⟨w1, ev, he, h1, h2⟩ :=
        ih has ((api.Connect s.1 pi).1, s.2 ++ [.connect pi (api.Connect s.1 pi).2])
      refine ⟨w1, .connect pi (api.Connect s.1 pi).2 :: ev, ?_, ?_, ?_⟩
      · show (_ >>= _) = _
        simp only [Except.bind, bind] at he ⊢
        rw [he]
        simp
      · simpa [advertised] using h1
      · simpa [searched] using h2

/-- With every bootstrap address resolvable, `bootstrapPeers` returns, having made only
`Connect` calls. -/
theorem bootstrapPeers_ok {W : Type} (api : Net W) (d : DHT) (w : W)
    (h : ∀ a ∈ d.BootstrapPeers, api.AddrInfoFromP2pAddr a ≠ none) :
    ∃ w1 ev, bootstrapPeers api d w = .ok (w1, ev) ∧ advertised ev = [] ∧ searched ev = [] := by
  obtain ⟨w1, ev, he, h1, h2⟩ := bootstrap_foldlM_ok api d.BootstrapPeers h (w, [])
  exact ⟨w1, ev, by simpa [bootstrapPeers] using he, h1, h2⟩

/-- In the start-order schedule, a bootstrap list with an address that does not resolve
makes `bootstrapPeers` end in a nil-dereference panic. -/
theorem bootstrapPeers_unresolved_panics {W : Type} (api : Net W) (d : DHT) (w : W)
    (h : ∃ a ∈ d.BootstrapPeers, api.AddrInfoFromP2pAddr a = none) :
    bootstrapPeers api d w = .error .nilDereference := by
  unfold bootstrapPeers
  generalize d.BootstrapPeers = l at h
  generalize ((w, []) : W × List Event) = s
  induction l generalizing s with
  | nil =>
    obtain ⟨a, ha, _⟩ := h
    simp at ha
  | cons b bs ih =>
    rw [List.foldlM_cons]
    cases hb : api.AddrInfoFromP2pAddr b with
    | none => rfl
    | some pi =>
      have hrest : ∃ a ∈ bs, api.AddrInfoFromP2pAddr a = none := by
        obtain ⟨a, ha, hnone⟩ := h
        rcases List.mem_cons.mp ha with rfl | hmem
        · rw [hb] at hnone
          simp at hnone
        · exact ⟨a, hmem, hnone⟩
      by_cases hc : api.Connectedness s.1 pi.ID = true
      · have hw : bootstrapWorker api (some pi) s = Except.ok s := by
          simp [bootstrapWorker, hc]
        rw [hw]
        exact ih hrest s
      · have hw : bootstrapWorker api (some pi) s
            = Except.ok ((api.Connect s.1 pi).1,
                s.2 ++ [.connect pi (api.Connect s.1 pi).2]) := by
          simp [bootstrapWorker, hc]
        rw [hw]
        exact ih hrest _

/-- C4 fails on the code: for a bootstrap list whose second address carries no peer
identity, `peer.AddrInfoFromP2pAddr` yields a nil pointer, its error is discarded, and the
goroutine started for that address dereferences the pointer: `bootstrapPeers` ends in a
nil-dereference panic instead of skipping the address. The goroutine body panics in every
world state, so no schedule avoids it. -/
theorem bootstrapPeers_malformed_address_panics :
    bootstrapPeers demoNet
        { NewDHT [] with
          BootstrapPeers := ["/ip4/10.0.0.1/tcp/4001/p2p/b1", "/ip4/127.0.0.1/tcp/4001"] } []
      = .error .nilDereference
    ∧ ∀ s : List PeerID × List Event,
        bootstrapWorker demoNet (demoNet.AddrInfoFromP2pAddr "/ip4/127.0.0.1/tcp/4001") s
          = .error .nilDereference := by
  constructor
  · rfl
  · intro s
    rfl

/-! ## Rendezvous generator -/

/-- The time-step code is returned when the interval is not zero, the time step is not
negative, the secret decodes and the code generation returns. -/
theorem TOTPAt_ok (c : Crypto) (secret : String) (digits interval timestamp : Int)
    (key : List Nat) (code : String) (hint : interval ≠ 0)
    (hstep : 0 ≤ Int.tdiv timestamp interval) (hdec : c.base32Decode secret = some key)
    (hgen : c.hmacCode key digits (Int.tdiv timestamp interval) = .ok code) :
    TOTPAt c secret digits interval timestamp = .ok code := by
  have hneg : ¬ Int.tdiv timestamp interval < 0 := by omega
  simp [TOTPAt, generateOTP, hint, hneg, hdec, hgen]

/-- With a secret, `Rendezvous` returns exactly when the time-step code is returned. -/
theorem Rendezvous_rotating (c : Crypto) (now : Int) (d : DHT) (code : String)
    (hkey : d.OTPKey ≠ "")
    (hcode : TOTPAt c d.OTPKey d.KeyLength d.OTPInterval now = .ok code) :
    Rendezvous c now d = .ok (c.MD5 code, { d with latestRendezvous := c.MD5 code }) := by
  simp [Rendezvous, hkey, hcode]

theorem Rendezvous_static (c : Crypto) (now : Int) (d : DHT) (hkey : d.OTPKey = "") :
    Rendezvous c now d = .ok (d.RendezvousString, d) := by
  simp [Rendezvous, hkey]

/-- C5, as stated, fails: `Rendezvous` does not produce a value for every configuration.
With a secret and `OTPInterval = 0` (the value `NewDHT` leaves, which `Run` does not
default) the time step `timestamp / interval` is an integer division by zero; with a
secret that is not base32 the code generation panics on decoding it. -/
theorem Rendezvous_panics_without_value :
    Rendezvous demoCrypto 1000 { NewDHT [] with OTPKey := "JBSWY3DPEHPK3PXP" }
        = .error .integerDivideByZero
      ∧ Rendezvous demoCrypto 1000
          { NewDHT [] with OTPKey := "s3cret", OTPInterval := 30, KeyLength := 12 }
        = .error (.explicit "decode secret failed")
      ∧ ¬ ∃ r, Rendezvous demoCrypto 1000 { NewDHT [] with OTPKey := "JBSWY3DPEHPK3PXP" }
          = .ok r := by
  refine ⟨rfl, rfl, ?_⟩
  rintro ⟨r, hr⟩
  have h : Rendezvous demoCrypto 1000 { NewDHT [] with OTPKey := "JBSWY3DPEHPK3PXP" }
      = .error .integerDivideByZero := rfl
  rw [h] at hr
  cases hr

/-- C5 (amended): with an empty `OTPKey`, `Rendezvous` returns `RendezvousString` and
leaves the receiver unchanged. With a non-empty `OTPKey`, a non-zero `OTPInterval`, a
non-negative time step, a secret that decodes as base32 and a code generation that
returns, it returns the MD5 fingerprint of the time-step code for the secret, `KeyLength`
and `OTPInterval` at the current time, and the receiver afterwards differs from before
only in `latestRendezvous`, which holds the returned value. Whenever a value is returned,
it is one of these two, and no field but `latestRendezvous` has changed. -/
theorem Rendezvous_value (c : Crypto) (now : Int) (d : DHT) :
    (d.OTPKey = "" → Rendezvous c now d = .ok (d.RendezvousString, d))
      ∧ (∀ key code, d.OTPKey ≠ "" → d.OTPInterval ≠ 0 →
          0 ≤ Int.tdiv now d.OTPInterval →
          c.base32Decode d.OTPKey = some key →
          c.hmacCode key d.KeyLength (Int.tdiv now d.OTPInterval) = .ok code →
          Rendezvous c now d = .ok (c.MD5 code, { d with latestRendezvous := c.MD5 code }))
      ∧ (∀ rv d1, Rendezvous c now d = .ok (rv, d1) →
          d1 = { d with latestRendezvous := d1.latestRendezvous }
          ∧ (d.OTPKey = "" → rv = d.RendezvousString ∧ d1 = d)
          ∧ (d.OTPKey ≠ "" → d1.latestRendezvous = rv
              ∧ ∃ code, TOTPAt c d.OTPKey d.KeyLength d.OTPInterval now = .ok code
                  ∧ rv = c.MD5 code)) := by
  refine ⟨Rendezvous_static c now d, ?_, ?_⟩
  · intro key code hkey hint hstep hdec hgen
    exact Rendezvous_rotating c now d code hkey
      (TOTPAt_ok c d.OTPKey d.KeyLength d.OTPInterval now key code hint hstep hdec hgen)
  · intro rv d1 hr
    by_cases hkey : d.OTPKey = ""
    · rw [Rendezvous_static c now d hkey] at hr
      simp only [Except.ok.injEq, Prod.mk.injEq] at hr
      obtain ⟨h1, h2⟩ := hr
      subst h1 h2
      exact ⟨rfl, fun _ => ⟨rfl, rfl⟩, fun h => absurd hkey h⟩
    · cases hT : TOTPAt c d.OTPKey d.KeyLength d.OTPInterval now with
      | error p =>
        simp [Rendezvous, hkey, hT] at hr
      | ok code =>
        rw [Rendezvous_rotating c now d code hkey hT] at hr
        simp only [Except.ok.injEq, Prod.mk.injEq] at hr
        obtain ⟨h1, h2⟩ := hr
        subst h1 h2
        exact ⟨rfl, fun h => absurd h hkey, fun _ => ⟨rfl, code, rfl, rfl⟩⟩

/-- The amended C5 on two configurations: a rotating base32 secret with a 30-second
interval, and a static rendezvous string. -/
theorem Rendezvous_value_witness :
    Rendezvous demoCrypto 1000
        { NewDHT [] with OTPKey := "JBSWY3DPEHPK3PXP", OTPInterval := 30, KeyLength := 12,
                         latestRendezvous := "old" }
      = .ok ("md5:otp1193-33",
         { NewDHT [] with OTPKey := "JBSWY3DPEHPK3PXP", OTPInterval := 30, KeyLength := 12,
                          latestRendezvous := "md5:otp1193-33" })
    ∧ Rendezvous demoCrypto 1000
        { NewDHT [] with RendezvousString := "room", latestRendezvous := "old" }
      = .ok ("room", { NewDHT [] with RendezvousString := "room", latestRendezvous := "old" }) :=
  ⟨(Rendezvous_value demoCrypto 1000
      { NewDHT [] with OTPKey := "JBSWY3DPEHPK3PXP", OTPInterval := 30, KeyLength := 12,
                       latestRendezvous := "old" }).2.1
      [74, 66, 83, 87, 89, 51, 68, 80, 69, 72, 80, 75, 51, 80, 88, 80] "otp1193-33"
      (by decide) (by decide) (by decide) (by decide) rfl,
   (Rendezvous_value demoCrypto 1000
      { NewDHT [] with RendezvousString := "room", latestRendezvous := "old" }).1 rfl⟩

/-! ## Starting the DHT -/

theorem Run_started {W : Type} (api : Net W) (d : DHT) (w : W) (kad : IpfsDHT)
    (hk : d.IpfsDHT = some kad) :
    ∃ r, Run api d w = .ok r ∧ r.d.IpfsDHT = some kad
      ∧ r.events = [.dhtBootstrap kad] ∧ (r.err = none → r.loop = some kad) := by
  have hs : ∀ d1 : DHT, d1.IpfsDHT = some kad →
      startDHT api d1 w = (d1, w, [], (some kad, none)) := by
    intro d1 h1
    simp [startDHT, h1]
  have hk2 : (if (if d.KeyLength = 0 then { d with KeyLength := 12 } else d).BootstrapPeers.length
        = 0
      then { (if d.KeyLength = 0 then { d with KeyLength := 12 } else d) with
             BootstrapPeers := api.DefaultBootstrapPeers }
      else (if d.KeyLength = 0 then { d with KeyLength := 12 } else d)).IpfsDHT = some kad := by
    split <;> split <;> simp [hk]
  unfold Run
  simp only [hs _ hk2]
  cases hb : api.Bootstrap w kad with
  | mk w1 e =>
    cases e with
    | none => exact ⟨_, rfl, hk2, by simp, fun _ => rfl⟩
    | some err => exact ⟨_, rfl, hk2, by simp, fun h => by simp at h⟩

theorem Run_construction_failure {W : Type} (api : Net W) (d : DHT) (w w1 : W) (e : GoError)
    (hk : d.IpfsDHT = none) (hn : api.New w d.dhtOptions = (w1, .error e)) :
    ∃ r, Run api d w = .ok r ∧ r.err = some e ∧ r.d.IpfsDHT = none ∧ r.loop = none
      ∧ r.events = [.dhtNew] := by
  have hs : ∀ d1 : DHT, d1.IpfsDHT = none → d1.dhtOptions = d.dhtOptions →
      startDHT api d1 w = (d1, w1, [.dhtNew], (none, some e)) := by
    intro d1 h1 h2
    simp [startDHT, h1, h2, hn]
  have hk2 : (if (if d.KeyLength = 0 then { d with KeyLength := 12 } else d).BootstrapPeers.length
        = 0
      then { (if d.KeyLength = 0 then { d with KeyLength := 12 } else d) with
             BootstrapPeers := api.DefaultBootstrapPeers }
      else (if d.KeyLength = 0 then { d with KeyLength := 12 } else d)).IpfsDHT = none := by
    split <;> split <;> simp [hk]
  have ho : (if (if d.KeyLength = 0 then { d with KeyLength := 12 } else d).BootstrapPeers.length
        = 0
      then { (if d.KeyLength = 0 then { d with KeyLength := 12 } else d) with
             BootstrapPeers := api.DefaultBootstrapPeers }
      else (if d.KeyLength = 0 then { d with KeyLength := 12 } else d)).dhtOptions
        = d.dhtOptions := by
    split <;> split <;> simp
  unfold Run
  simp only [hs _ hk2 ho]
  exact ⟨_, rfl, rfl, hk2, rfl, rfl⟩

/-- C7: starting the DHT is idempotent. (a) Once an instance is stored, `startDHT`, the
routing `Option` and `Run` all use that same instance, construct nothing and leave the
receiver's instance in place. (b) From Idle, a successful construction stores and returns
the new instance, and every later start returns it without constructing. (c) From Idle,
a failed construction returns its error to the caller (also through `Run`), stores no
instance, and a later start calls the constructor again. -/
theorem startDHT_idempotent {W : Type} (api : Net W) (d : DHT) (w : W) :
    (∀ kad, d.IpfsDHT = some kad →
        startDHT api d w = (d, w, [], (some kad, none))
        ∧ DHT.Option api d w = (d, w, [], (some kad, none))
        ∧ ∃ r, Run api d w = .ok r ∧ r.d.IpfsDHT = some kad
            ∧ Event.dhtNew ∉ r.events ∧ (r.err = none → r.loop = some kad))
      ∧ (∀ kad w1, d.IpfsDHT = none → api.New w d.dhtOptions = (w1, .ok kad) →
        startDHT api d w = ({ d with IpfsDHT := some kad }, w1, [.dhtNew], (some kad, none))
        ∧ ∀ w2, startDHT api { d with IpfsDHT := some kad } w2
            = ({ d with IpfsDHT := some kad }, w2, [], (some kad, none)))
      ∧ (∀ e w1, d.IpfsDHT = none → api.New w d.dhtOptions = (w1, .error e) →
        startDHT api d w = (d, w1, [.dhtNew], (none, some e))
        ∧ (∃ r, Run api d w = .ok r ∧ r.err = some e ∧ r.d.IpfsDHT = none ∧ r.loop = none)
        ∧ ∀ w2, (startDHT api d w2).2.2.1 = [.dhtNew]) := by
  refine ⟨?_, ?_, ?_⟩
  · intro kad hk
    have hs : startDHT api d w = (d, w, [], (some kad, none)) := by
      simp [startDHT, hk]
    refine ⟨hs, hs, ?_⟩
    obtain ⟨r, hr, h1, h2, h3⟩ := Run_started api d w kad hk
    exact ⟨r, hr, h1, by simp [h2], h3⟩
  · intro kad w1 hk hn
    constructor
    · simp [startDHT, hk, hn]
    · intro w2
      simp [startDHT]
  · intro e w1 hk hn
    refine ⟨by simp [startDHT, hk, hn], ?_, ?_⟩
    · obtain ⟨r, hr, h1, h2, h3, _⟩ := Run_construction_failure api d w w1 e hk hn
      exact ⟨r, hr, h1, h2, h3⟩
    · intro w2
      simp only [startDHT, hk]
      cases hn2 : api.New w2 d.dhtOptions with
      | mk w3 res =>
        cases res with
        | error err => rfl
        | ok k => rfl

/-- C7 on the small world, whose constructor yields instance 7: a first `Run` constructs
it, a second start returns it without constructing. -/
theorem startDHT_idempotent_witness :
    startDHT demoNet (NewDHT []) []
        = ({ NewDHT [] with IpfsDHT := some 7 }, [], [.dhtNew], (some 7, none))
      ∧ startDHT demoNet { NewDHT [] with IpfsDHT := some 7 } ["p1"]
        = ({ NewDHT [] with IpfsDHT := some 7 }, ["p1"], [], (some 7, none)) :=
  ⟨((startDHT_idempotent demoNet (NewDHT []) []).2.1 7 [] rfl rfl).1,
   ((startDHT_idempotent demoNet { NewDHT [] with IpfsDHT := some 7 } ["p1"]).1 7 rfl).1⟩

/-! ## Advertise, search and dial -/

theorem dialled_append (a b : List Event) : dialled (a ++ b) = dialled a ++ dialled b := by
  induction a with
  | nil => rfl
  | cons e es ih => cases e <;> simp [dialled, ih]

theorem advertised_append (a b : List Event) :
    advertised (a ++ b) = advertised a ++ advertised b := by
  induction a with
  | nil => rfl
  | cons e es ih => cases e <;> simp [advertised, ih]

theorem searched_append (a b : List Event) : searched (a ++ b) = searched a ++ searched b := by
  induction a with
  | nil => rfl
  | cons e es ih => cases e <;> simp [searched, ih]

theorem expectedDials_sublist {W : Type} (api : Net W) (w : W) (l : List AddrInfo) :
    List.Sublist (expectedDials api w l) l := by
  induction l generalizing w with
  | nil => exact List.Sublist.slnil
  | cons p ps ih =>
    unfold expectedDials
    split
    · exact (ih _).cons₂ p
    · exact (ih _).cons p

theorem expectedDials_mem {W : Type} (api : Net W) (w : W) (l : List AddrInfo) (p : AddrInfo)
    (h : p ∈ expectedDials api w l) : p.ID ≠ api.ID ∧ p.Addrs ≠ [] := by
  induction l generalizing w with
  | nil => simp [expectedDials] at h
  | cons q qs ih =>
    unfold expectedDials at h
    split at h
    · rename_i hq
      rcases List.mem_cons.mp h with rfl | h2
      · exact ⟨hq.1, hq.2.1⟩
      · exact ih _ h2
    · exact ih _ h

/-- The dial loop from any state: the calls already made stay, and only `Connect` calls
to the expected results are added, in stream order. -/
theorem foldl_dialStep {W : Type} (api : Net W) (l : List AddrInfo) (s : W × List Event) :
    ∃ ev, (l.foldl (dialStep api) s).2 = s.2 ++ ev
      ∧ dialled ev = expectedDials api s.1 l ∧ advertised ev = [] ∧ searched ev = [] := by
  induction l generalizing s with
  | nil => exact ⟨[], by simp, rfl, rfl, rfl⟩
  | cons p ps ih =>
    rw [List.foldl_cons]
    by_cases hskip : p.ID = api.ID ∨ p.Addrs.length = 0
    · have hstep : dialStep api s p = s := by
        unfold dialStep
        rw [if_pos hskip]
      have hexp : expectedDials api s.1 (p :: ps) = expectedDials api s.1 ps := by
        have : ¬ (p.ID ≠ api.ID ∧ p.Addrs ≠ [] ∧ api.Connectedness s.1 p.ID = false) := by
          rintro ⟨h1, h2, _⟩
          rcases hskip with h | h
          · exact h1 h
          · exact h2 (List.length_eq_zero.mp h)
        simp [expectedDials, this]
      rw [hstep, hexp]
      exact ih s
    · have hid : p.ID ≠ api.ID := fun h => hskip (Or.inl h)
      have haddr : p.Addrs ≠ [] := fun h => hskip (Or.inr (by simp [h]))
      by_cases hc : api.Connectedness s.1 p.ID = true
      · have hstep : dialStep api s p = s := by
          unfold dialStep
          rw [if_neg hskip, if_neg (by simp [hc])]
        have hexp : expectedDials api s.1 (p :: ps) = expectedDials api s.1 ps := by
          simp [expectedDials, hc]
        rw [hstep, hexp]
        exact ih s
      · have hcf : api.Connectedness s.1 p.ID = false := by
          cases h : api.Connectedness s.1 p.ID with
          | true => exact absurd h hc
          | false => rfl
        have hstep : dialStep api s p
            = ((api.Connect s.1 p).1, s.2 ++ [.connect p (api.Connect s.1 p).2]) := by
          unfold dialStep
          rw [if_neg hskip, if_pos (by simp [hcf])]
        have hexp : expectedDials api s.1 (p :: ps)
            = p :: expectedDials api (api.Connect s.1 p).1 ps := by
          simp [expectedDials, hid, haddr, hcf]
        rw [hstep, hexp]
        obtain ⟨ev, h1, h2, h3, h4⟩ :=
          ih ((api.Connect s.1 p).1, s.2 ++ [.connect p (api.Connect s.1 p).2])
        refine ⟨.connect p (api.Connect s.1 p).2 :: ev, ?_, ?_, ?_, ?_⟩
        · rw [h1]; simp
        · simp only [dialled]; rw [h2]
        · simpa [advertised] using h3
        · simpa [searched] using h4

/-- The calls of one `announceAndConnect` round: one advertisement and one search under
`rv`, then dials only. -/
theorem announceAndConnect_keys {W : Type} (api : Net W) (kad : IpfsDHT) (rv : String)
    (w : W) :
    advertised (announceAndConnect api kad rv w).2.1 = [rv]
      ∧ searched (announceAndConnect api kad rv w).2.1 = [rv] := by
  cases hf : api.FindPeers (api.Advertise w kad rv) kad rv with
  | mk w1 res =>
    cases res with
    | error err => simp [announceAndConnect, hf, advertised, searched]
    | ok peerChan =>
      obtain ⟨ev, h1, _, h3, h4⟩ := foldl_dialStep api peerChan
        (w1, [.advertise kad rv, .findPeers kad rv])
      simp only [announceAndConnect, hf, h1, advertised_append, searched_append, h3, h4]
      simp [advertised, searched]

/-- C10: for every stream returned by the search under `rv`, `announceAndConnect` returns
no error, and its `Connect` calls are exactly the results that are not the local peer,
have at least one address and are not connected when their turn comes, one call per such
result and in stream order, whatever the outcome of the earlier calls. -/
theorem announceAndConnect_dials {W : Type} (api : Net W) (kad : IpfsDHT) (rv : String)
    (w w1 : W) (peerChan : List AddrInfo)
    (hf : api.FindPeers (api.Advertise w kad rv) kad rv = (w1, .ok peerChan)) :
    (announceAndConnect api kad rv w).2.2 = none
      ∧ dialled (announceAndConnect api kad rv w).2.1 = expectedDials api w1 peerChan
      ∧ List.Sublist (dialled (announceAndConnect api kad rv w).2.1) peerChan
      ∧ ∀ p ∈ dialled (announceAndConnect api kad rv w).2.1, p.ID ≠ api.ID ∧ p.Addrs ≠ [] := by
  have hd : dialled (announceAndConnect api kad rv w).2.1 = expectedDials api w1 peerChan := by
    obtain ⟨ev, h1, h2, _, _⟩ := foldl_dialStep api peerChan
      (w1, [.advertise kad rv, .findPeers kad rv])
    simp only [announceAndConnect, hf, h1, dialled_append, h2]
    simp [dialled]
  refine ⟨by simp [announceAndConnect, hf], hd, ?_, ?_⟩
  · rw [hd]
    exact expectedDials_sublist api w1 peerChan
  · intro p hp
    rw [hd] at hp
    exact expectedDials_mem api w1 peerChan p hp

/-- C10 on the small world with `b1` already connected: of the five results (`me`, `down`,
`noaddr`, `p1`, `b1`) the local peer, the one without address and the connected one are
skipped; `down` is dialled and fails, and `p1` is still dialled after it. -/
theorem announceAndConnect_dials_witness :
    announceAndConnect demoNet 7 "rv" ["b1"]
      = (["p1", "b1"],
         [.advertise 7 "rv", .findPeers 7 "rv",
          .connect ⟨"down", ["/ip4/10.0.0.5"]⟩ (some "dial failed"),
          .connect ⟨"p1", ["/ip4/10.0.0.3"]⟩ none],
         none)
    ∧ dialled (announceAndConnect demoNet 7 "rv" ["b1"]).2.1
      = [⟨"down", ["/ip4/10.0.0.5"]⟩, ⟨"p1", ["/ip4/10.0.0.3"]⟩] := by
  have h := announceAndConnect_dials demoNet 7 "rv" ["b1"] ["b1"]
    [⟨"me", ["/ip4/10.0.0.9"]⟩, ⟨"down", ["/ip4/10.0.0.5"]⟩, ⟨"noaddr", []⟩,
     ⟨"p1", ["/ip4/10.0.0.3"]⟩, ⟨"b1", ["/ip4/10.0.0.1/tcp/4001"]⟩] rfl
  refine ⟨by decide, ?_⟩
  rw [h.2.1]
  decide

/-! ## The connect cycle -/

/-- The round under the previous key advertises and searches under it once, and there is
no such round without a previous key. -/
theorem previousKeyRound_keys {W : Type} (api : Net W) (kad : IpfsDHT) (d : DHT) (w1 : W) :
    advertised (previousKeyRound api kad d w1).2
        = (if d.latestRendezvous ≠ "" then [d.latestRendezvous] else [])
      ∧ searched (previousKeyRound api kad d w1).2
        = (if d.latestRendezvous ≠ "" then [d.latestRendezvous] else []) := by
  have hk := announceAndConnect_keys api kad d.latestRendezvous w1
  by_cases hl : d.latestRendezvous ≠ ""
  · unfold previousKeyRound
    simp only [if_pos hl]
    exact hk
  · unfold previousKeyRound
    simp only [if_neg hl]
    exact ⟨rfl, rfl⟩

/-- One connect cycle, phase by phase, once the bootstrap dials have completed in world
`wb` and `Rendezvous` has returned at the clock reading that follows the round under the
previous key. -/
theorem connect_spec {W : Type} (api : Net W) (c : Crypto) (kad : IpfsDHT) (d : DHT) (w : W)
    (wb : W) (ev1 : List Event) (rv : String) (d1 : DHT)
    (hboot : bootstrapPeers api d w = .ok (wb, ev1))
    (hR : Rendezvous c (api.UnixNow (previousKeyRound api kad d wb).1) d = .ok (rv, d1)) :
    connect api c kad d w
      = .ok (d1, (announceAndConnect api kad rv (previousKeyRound api kad d wb).1).1, ev1,
             (previousKeyRound api kad d wb).2,
             (announceAndConnect api kad rv (previousKeyRound api kad d wb).1).2.1) := by
  unfold connect
  rw [hboot]
  simp only [hR]

/-- With a positive interval, a clock that never reads a negative time, a secret that
decodes and a code generation that returns, the time-step code is returned at every clock
reading. -/
theorem TOTPAt_returns {W : Type} (api : Net W) (c : Crypto) (secret : String)
    (digits interval : Int) (key : List Nat) (hint : 0 < interval)
    (hclock : ∀ w, 0 ≤ api.UnixNow w) (hdec : c.base32Decode secret = some key)
    (hgen : ∀ input, 0 ≤ input → ∃ code, c.hmacCode key digits input = .ok code) (w2 : W) :
    ∃ code, TOTPAt c secret digits interval (api.UnixNow w2) = .ok code := by
  have hstep : 0 ≤ Int.tdiv (api.UnixNow w2) interval :=
    Int.tdiv_nonneg (hclock w2) (le_of_lt hint)
  obtain ⟨code, hcode⟩ := hgen _ hstep
  exact ⟨code, TOTPAt_ok c secret digits interval (api.UnixNow w2) key code (by omega) hstep
    hdec hcode⟩

/-- The discovery loop with a rotating secret whose time-step code is returned at every
clock reading: every cycle completes; each cycle's last round runs under the fingerprint
of a time-step code; from the second cycle on, the rounds of a cycle run under the
previous cycle's key and then the cycle's own key. The first cycle's previous-key round
runs under the `latestRendezvous` the loop started with, if any. -/
theorem discoveryLoop_spec {W : Type} (api : Net W) (c : Crypto) (kad : IpfsDHT)
    (hmd5 : ∀ s, c.MD5 s ≠ "") (secret : String) (digits interval : Int)
    (hsec : secret ≠ "")
    (hT : ∀ w2, ∃ code, TOTPAt c secret digits interval (api.UnixNow w2) = .ok code)
    (ws : List W) (d : DHT)
    (hb : ∀ a ∈ d.BootstrapPeers, api.AddrInfoFromP2pAddr a ≠ none)
    (h1 : d.OTPKey = secret) (h2 : d.KeyLength = digits) (h3 : d.OTPInterval = interval) :
    ∃ d2 logs, discoveryLoop api c kad d ws = .ok (d2, logs)
      ∧ logs.length = ws.length
      ∧ (∀ l ∈ logs, ∃ w2 code,
          TOTPAt c secret digits interval (api.UnixNow w2) = .ok code
          ∧ advertised l.2.2 = [c.MD5 code] ∧ searched l.2.2 = [c.MD5 code])
      ∧ List.Chain' (fun l1 l2 =>
          advertised (l2.2.1 ++ l2.2.2) = advertised l1.2.2 ++ advertised l2.2.2
          ∧ searched (l2.2.1 ++ l2.2.2) = searched l1.2.2 ++ searched l2.2.2) logs
      ∧ (∀ l ∈ logs.head?,
          advertised l.2.1 = (if d.latestRendezvous ≠ "" then [d.latestRendezvous] else [])
          ∧ searched l.2.1
              = (if d.latestRendezvous ≠ "" then [d.latestRendezvous] else [])) := by
  induction ws generalizing d with
  | nil => exact ⟨d, [], rfl, rfl, by simp, List.chain'_nil, by simp⟩
  | cons w ws ih =>
    obtain ⟨wb, ev1, hboot, _, _⟩ := bootstrapPeers_ok api d w hb
    obtain ⟨code, hcode⟩ := hT (previousKeyRound api kad d wb).1
    have hkey : d.OTPKey ≠ "" := by rw [h1]; exact hsec
    have hcode2 : TOTPAt c d.OTPKey d.KeyLength d.OTPInterval
        (api.UnixNow (previousKeyRound api kad d wb).1) = .ok code := by
      rw [h1, h2, h3]; exact hcode
    have hR := Rendezvous_rotating c _ d code hkey hcode2
    have hc := connect_spec api c kad d w wb ev1 _ _ hboot hR
    obtain ⟨hp1, hp2⟩ := previousKeyRound_keys api kad d wb
    obtain ⟨hk1, hk2⟩ := announceAndConnect_keys api kad (c.MD5 code)
      (previousKeyRound api kad d wb).1
    obtain ⟨d2, rest, hloop, hlen, hall, hchain, hhead⟩ :=
      ih { d with latestRendezvous := c.MD5 code } hb h1 h2 h3
    refine ⟨d2, (ev1, (previousKeyRound api kad d wb).2,
      (announceAndConnect api kad (c.MD5 code) (previousKeyRound api kad d wb).1).2.1) :: rest,
      ?_, ?_, ?_, ?_, ?_⟩
    · simp only [discoveryLoop, hc, hloop]
    · simp [hlen]
    · intro l hl
      rcases List.mem_cons.mp hl with rfl | hl2
      · exact ⟨_, code, hcode, hk1, hk2⟩
      · exact hall l hl2
    · rw [List.chain'_cons']
      refine ⟨?_, hchain⟩
      intro y hy
      obtain ⟨hy1, hy2⟩ := hhead y hy
      have hne : c.MD5 code ≠ "" := hmd5 code
      simp only [ne_eq, hne, not_false_eq_true, if_true] at hy1 hy2
      simp only [advertised_append, searched_append, hy1, hy2, hk1, hk2]
      exact ⟨trivial, trivial⟩
    · intro l hl
      simp only [List.head?_cons, Option.mem_def, Option.some.injEq] at hl
      subst hl
      exact ⟨hp1, hp2⟩

/-- C6: take a connect cycle whose bootstrap dials complete (every bootstrap address
resolves) and whose `Rendezvous` call returns (no secret, or a positive `OTPInterval`, a
clock that never reads a negative time, a secret that decodes as base32 and a code
generation that returns). The bootstrap phase neither advertises nor searches; the
current key is the value `Rendezvous` returns at the clock reading that follows the round
under the previous key; if `latestRendezvous` is non-empty the cycle advertises and
searches under that previous key and after it under the current key, and otherwise only
under the current key. With a rotating secret (whose fingerprints are never empty) every
cycle of the discovery loop completes, and every cycle after the first covers the key of
the preceding cycle and then its own current key. -/
theorem connect_cycle_keys {W : Type} (api : Net W) (c : Crypto) (kad : IpfsDHT) (d : DHT)
    (w : W) (ws : List W)
    (hb : ∀ a ∈ d.BootstrapPeers, api.AddrInfoFromP2pAddr a ≠ none)
    (hrv : d.OTPKey = "" ∨ (0 < d.OTPInterval ∧ (∀ w2, 0 ≤ api.UnixNow w2)
      ∧ ∃ key, c.base32Decode d.OTPKey = some key
          ∧ ∀ input, 0 ≤ input → ∃ code, c.hmacCode key d.KeyLength input = .ok code)) :
    (∃ wb ev1 rv d1 w1 ev2 ev3,
        bootstrapPeers api d w = .ok (wb, ev1)
        ∧ Rendezvous c (api.UnixNow (previousKeyRound api kad d wb).1) d = .ok (rv, d1)
        ∧ connect api c kad d w = .ok (d1, w1, ev1, ev2, ev3)
        ∧ advertised ev1 = [] ∧ searched ev1 = []
        ∧ (d.latestRendezvous ≠ "" →
            advertised (ev2 ++ ev3) = [d.latestRendezvous, rv]
            ∧ searched (ev2 ++ ev3) = [d.latestRendezvous, rv])
        ∧ (d.latestRendezvous = "" →
            advertised (ev2 ++ ev3) = [rv] ∧ searched (ev2 ++ ev3) = [rv]))
      ∧ (d.OTPKey ≠ "" → (∀ s, c.MD5 s ≠ "") →
          ∃ d2 logs, discoveryLoop api c kad d (w :: ws) = .ok (d2, logs)
            ∧ logs.length = (w :: ws).length
            ∧ (∀ l ∈ logs, ∃ w2 code,
                TOTPAt c d.OTPKey d.KeyLength d.OTPInterval (api.UnixNow w2) = .ok code
                ∧ advertised l.2.2 = [c.MD5 code] ∧ searched l.2.2 = [c.MD5 code])
            ∧ List.Chain' (fun l1 l2 =>
                advertised (l2.2.1 ++ l2.2.2) = advertised l1.2.2 ++ advertised l2.2.2
                ∧ searched (l2.2.1 ++ l2.2.2) = searched l1.2.2 ++ searched l2.2.2) logs) := by
  constructor
  · obtain ⟨wb, ev1, hboot, ha1, hs1⟩ := bootstrapPeers_ok api d w hb
    have hR : ∃ rv d1,
        Rendezvous c (api.UnixNow (previousKeyRound api kad d wb).1) d = .ok (rv, d1) := by
      rcases hrv with hkey | ⟨hint, hclock, key, hdec, hgen⟩
      · exact ⟨_, _, Rendezvous_static c _ d hkey⟩
      · by_cases hkey : d.OTPKey = ""
        · exact ⟨_, _, Rendezvous_static c _ d hkey⟩
        · obtain ⟨code, hcode⟩ := TOTPAt_returns api c d.OTPKey d.KeyLength d.OTPInterval key
            hint hclock hdec hgen (previousKeyRound api kad d wb).1
          exact ⟨_, _, Rendezvous_rotating c _ d code hkey hcode⟩
    obtain ⟨rv, d1, hR⟩ := hR
    have hc := connect_spec api c kad d w wb ev1 rv d1 hboot hR
    obtain ⟨hp1, hp2⟩ := previousKeyRound_keys api kad d wb
    obtain ⟨hk1, hk2⟩ := announceAndConnect_keys api kad rv (previousKeyRound api kad d wb).1
    refine ⟨wb, ev1, rv, d1, _, _, _, hboot, hR, hc, ha1, hs1, ?_, ?_⟩
    · intro hl
      simp [advertised_append, searched_append, hp1, hp2, hk1, hk2, hl]
    · intro hl
      simp [advertised_append, searched_append, hp1, hp2, hk1, hk2, hl]
  · intro hkey hmd5
    rcases hrv with hempty | ⟨hint, hclock, key, hdec, hgen⟩
    · exact absurd hempty hkey
    · obtain ⟨d2, logs, h1, h2, h3, h4, _⟩ := discoveryLoop_spec api c kad hmd5 d.OTPKey
        d.KeyLength d.OTPInterval hkey
        (TOTPAt_returns api c d.OTPKey d.KeyLength d.OTPInterval key hint hclock hdec hgen)
        (w :: ws) d hb rfl rfl rfl
      exact ⟨d2, logs, h1, h2, h3, h4⟩

theorem demoCrypto_MD5_ne (s : String) : demoCrypto.MD5 s ≠ "" := by
  intro h
  have hlen := congrArg String.length h
  simp [demoCrypto, String.length_append] at hlen
  have h4 : "md5:".length = 4 := by decide
  omega

theorem demoNet_clock (w : List PeerID) : 0 ≤ demoNet.UnixNow w := by
  show (0 : Int) ≤ 1000 + 30 * (w.length : Int)
  omega

/-- With `OTPInterval = 0` the connect cycle does not reach the round under the current
key: `Rendezvous` panics after the bootstrap dials. -/
theorem connect_panics_on_zero_interval :
    connect demoNet demoCrypto 7 { demoRotating with OTPInterval := 0 } []
      = .error .integerDivideByZero := rfl

/-- C6 on the small world with a rotating base32 secret and a 30-second interval, for
three cycles started with no peer, with `b1` and again with no peer connected: every cycle
completes, the first cycle runs under its current key only, and each later cycle runs
under the preceding cycle's key and then its own (the third cycle falls into the same
time step as the second). -/
theorem connect_cycle_keys_witness :
    (∀ a ∈ demoRotating.BootstrapPeers, demoNet.AddrInfoFromP2pAddr a ≠ none)
      ∧ (∃ d2 logs, discoveryLoop demoNet demoCrypto 7 demoRotating [[], ["b1"], []]
            = .ok (d2, logs)
          ∧ logs.length = [[], ["b1"], ([] : List PeerID)].length
          ∧ (∀ l ∈ logs, ∃ w2 code,
              TOTPAt demoCrypto demoRotating.OTPKey demoRotating.KeyLength
                demoRotating.OTPInterval (demoNet.UnixNow w2) = .ok code
              ∧ advertised l.2.2 = [demoCrypto.MD5 code]
              ∧ searched l.2.2 = [demoCrypto.MD5 code])
          ∧ List.Chain' (fun l1 l2 =>
              advertised (l2.2.1 ++ l2.2.2) = advertised l1.2.2 ++ advertised l2.2.2
              ∧ searched (l2.2.1 ++ l2.2.2) = searched l1.2.2 ++ searched l2.2.2) logs)
      ∧ (match discoveryLoop demoNet demoCrypto 7 demoRotating [[], ["b1"], []] with
          | .ok r => r.2.map (fun l => advertised (l.2.1 ++ l.2.2))
          | .error _ => [])
        = [["md5:otp1193-35"], ["md5:otp1193-35", "md5:otp1193-36"],
           ["md5:otp1193-36", "md5:otp1193-36"]] :=
  ⟨by decide,
   (connect_cycle_keys demoNet demoCrypto 7 demoRotating [] [["b1"], []] (by decide)
     (Or.inr ⟨by decide, demoNet_clock,
       [74, 66, 83, 87, 89, 51, 68, 80, 69, 72, 80, 75, 51, 80, 88, 80], by decide,
       fun input _ => ⟨_, rfl⟩⟩)).2
     (by decide) demoCrypto_MD5_ne,
   by rfl⟩

/-! ## `Config.Apply` -/

theorem Config.applyEach_nil {Cfg : Type} (cfg : Cfg) :
    Config.applyEach cfg [] = cfg := rfl

theorem Config.applyEach_none {Cfg : Type} (cfg : Cfg)
    (opts : List (Option (NodeOption Cfg))) :
    Config.applyEach cfg (none :: opts) = Config.applyEach cfg opts := by
  simp [Config.applyEach]

theorem Config.applyEach_some {Cfg : Type} (cfg : Cfg) (opt : NodeOption Cfg)
    (opts : List (Option (NodeOption Cfg))) :
    Config.applyEach cfg (some opt :: opts) = Config.applyEach (opt cfg).1 opts := by
  simp [Config.applyEach]

theorem Config.Apply_none {Cfg : Type} (cfg : Cfg)
    (opts : List (Option (NodeOption Cfg))) :
    Config.Apply cfg (none :: opts) = Config.Apply cfg opts := by
  simp [Config.Apply]

theorem Config.Apply_some_ok {Cfg : Type} (cfg : Cfg) (opt : NodeOption Cfg)
    (opts : List (Option (NodeOption Cfg))) (h : (opt cfg).2 = none) :
    Config.Apply cfg (some opt :: opts) = Config.Apply (opt cfg).1 opts := by
  cases hr : opt cfg with
  | mk c1 e =>
    rw [hr] at h
    simp only at h
    subst h
    simp [Config.Apply, hr]

theorem Config.Apply_some_err {Cfg : Type} (cfg : Cfg) (opt : NodeOption Cfg)
    (opts : List (Option (NodeOption Cfg))) (err : GoError) (h : (opt cfg).2 = some err) :
    Config.Apply cfg (some opt :: opts) = ((opt cfg).1, some err) := by
  cases hr : opt cfg with
  | mk c1 e =>
    rw [hr] at h
    simp only at h
    subst h
    simp [Config.Apply, hr]

/-- A run without error has applied every non-nil option once, in order. -/
theorem Config.Apply_ok_eq_applyEach {Cfg : Type} (opts : List (Option (NodeOption Cfg)))
    (cfg : Cfg) (h : (Config.Apply cfg opts).2 = none) :
    (Config.Apply cfg opts).1 = Config.applyEach cfg opts := by
  induction opts generalizing cfg with
  | nil => rfl
  | cons o os ih =>
    cases o with
    | none =>
      rw [Config.Apply_none] at h ⊢
      rw [Config.applyEach_none]
      exact ih cfg h
    | some opt =>
      cases he : (opt cfg).2 with
      | none =>
        rw [Config.Apply_some_ok cfg opt os he] at h ⊢
        rw [Config.applyEach_some]
        exact ih _ h
      | some err =>
        rw [Config.Apply_some_err cfg opt os err he] at h
        simp at h

/-- After an error-free run over `pre`, a failing option ends the run with its error and
the configuration it left, whatever follows it. -/
theorem Config.Apply_append_err {Cfg : Type} (pre : List (Option (NodeOption Cfg)))
    (cfg : Cfg) (opt : NodeOption Cfg) (post : List (Option (NodeOption Cfg)))
    (err : GoError) (hpre : (Config.Apply cfg pre).2 = none)
    (hopt : (opt (Config.applyEach cfg pre)).2 = some err) :
    Config.Apply cfg (pre ++ some opt :: post)
      = ((opt (Config.applyEach cfg pre)).1, some err) := by
  induction pre generalizing cfg with
  | nil => exact Config.Apply_some_err cfg opt post err hopt
  | cons o os ih =>
    cases o with
    | none =>
      rw [List.cons_append, Config.Apply_none]
      rw [Config.Apply_none] at hpre
      rw [Config.applyEach_none] at hopt ⊢
      exact ih cfg hpre hopt
    | some o1 =>
      cases he : (o1 cfg).2 with
      | none =>
        rw [List.cons_append, Config.Apply_some_ok cfg o1 _ he]
        rw [Config.Apply_some_ok cfg o1 _ he] at hpre
        rw [Config.applyEach_some] at hopt ⊢
        exact ih _ hpre hopt
      | some e1 =>
        rw [Config.Apply_some_err cfg o1 os e1 he] at hpre
        simp at hpre

/-- An error returned by `Apply` is the error of an option that follows an error-free
run. -/
theorem Config.Apply_err_source {Cfg : Type} (opts : List (Option (NodeOption Cfg)))
    (cfg : Cfg) (err : GoError) (h : (Config.Apply cfg opts).2 = some err) :
    ∃ pre opt post, opts = pre ++ some opt :: post ∧ (Config.Apply cfg pre).2 = none
      ∧ (opt (Config.applyEach cfg pre)).2 = some err := by
  induction opts generalizing cfg with
  | nil => simp [Config.Apply] at h
  | cons o os ih =>
    cases o with
    | none =>
      rw [Config.Apply_none] at h
      obtain ⟨pre, opt, post, h1, h2, h3⟩ := ih cfg h
      refine ⟨none :: pre, opt, post, by rw [h1]; rfl, ?_, ?_⟩
      · rw [Config.Apply_none]; exact h2
      · rw [Config.applyEach_none]; exact h3
    | some o1 =>
      cases he : (o1 cfg).2 with
      | none =>
        rw [Config.Apply_some_ok cfg o1 os he] at h
        obtain ⟨pre, opt, post, h1, h2, h3⟩ := ih _ h
        refine ⟨some o1 :: pre, opt, post, by rw [h1]; rfl, ?_, ?_⟩
        · rw [Config.Apply_some_ok cfg o1 pre he]; exact h2
        · rw [Config.applyEach_some]; exact h3
      | some e1 =>
        rw [Config.Apply_some_err cfg o1 os e1 he] at h
        simp only [Option.some.injEq] at h
        subst h
        exact ⟨[], o1, os, rfl, rfl, he⟩

/-- C9: `Apply` runs the options in order, skipping nil entries. It returns nil exactly
when every non-nil option succeeds on the configuration left by the options before it,
and then the configuration is the one obtained by applying every non-nil option once in
order. Otherwise it returns the error of the earliest failing option, with the
configuration as that option left it: no later option is applied. -/
theorem Config.Apply_first_error {Cfg : Type} (cfg : Cfg)
    (opts : List (Option (NodeOption Cfg))) :
    ((Config.Apply cfg opts).2 = none ↔
        ∀ pre opt post, opts = pre ++ some opt :: post →
          (opt (Config.applyEach cfg pre)).2 = none)
      ∧ ((Config.Apply cfg opts).2 = none →
          (Config.Apply cfg opts).1 = Config.applyEach cfg opts)
      ∧ (∀ pre opt post err, opts = pre ++ some opt :: post →
          (Config.Apply cfg pre).2 = none →
          (opt (Config.applyEach cfg pre)).2 = some err →
          Config.Apply cfg opts = ((opt (Config.applyEach cfg pre)).1, some err))
      ∧ (∀ err, (Config.Apply cfg opts).2 = some err →
          ∃ pre opt post, opts = pre ++ some opt :: post
            ∧ (Config.Apply cfg pre).2 = none
            ∧ (opt (Config.applyEach cfg pre)).2 = some err) := by
  refine ⟨⟨?_, ?_⟩, Config.Apply_ok_eq_applyEach opts cfg, ?_, Config.Apply_err_source opts cfg⟩
  · intro hok pre opt post hdec
    cases hpre : (Config.Apply cfg pre).2 with
    | none =>
      cases hopt : (opt (Config.applyEach cfg pre)).2 with
      | none => rfl
      | some err =>
        rw [hdec, Config.Apply_append_err pre cfg opt post err hpre hopt] at hok
        simp at hok
    | some e1 =>
      obtain ⟨p1, o1, q1, h1, h2, h3⟩ := Config.Apply_err_source pre cfg e1 hpre
      rw [hdec, h1, List.append_assoc, List.cons_append,
        Config.Apply_append_err p1 cfg o1 _ e1 h2 h3] at hok
      simp at hok
  · intro hall
    cases hres : (Config.Apply cfg opts).2 with
    | none => rfl
    | some err =>
      obtain ⟨pre, opt, post, h1, _, h3⟩ := Config.Apply_err_source opts cfg err hres
      rw [hall pre opt post h1] at h3
      simp at h3
  · intro pre opt post err hdec hpre hopt
    rw [hdec]
    exact Config.Apply_append_err pre cfg opt post err hpre hopt

/-- C9 on four entries, the second nil and the third failing: the first and third options
are applied, the third one's error is returned, the fourth is not applied. Without the
failing option, all three options are applied in order. -/
theorem Config.Apply_first_error_witness :
    Config.Apply ([] : DemoConfig)
        [some (okOption "a"), none, some (failingOption "b"), some (okOption "c")]
      = (["a", "b"], some "cannot apply b")
    ∧ Config.Apply ([] : DemoConfig)
        [some (okOption "a"), none, some (okOption "b"), some (okOption "c")]
      = (["a", "b", "c"], none) := by
  constructor
  · exact (Config.Apply_first_error ([] : DemoConfig)
      [some (okOption "a"), none, some (failingOption "b"), some (okOption "c")]).2.2.1
      [some (okOption "a"), none] (failingOption "b") [some (okOption "c")]
      "cannot apply b" rfl rfl rfl
  · rfl

/-! ## Ledger index -/

theorem LastBlock_append (l : Ledger) (b : Block) :
    LastBlock { blocks := l.blocks ++ [b] }
      = if (LastBlock l).Index < b.Index then b else LastBlock l := by
  simp [LastBlock, List.foldl_append]

/-- A successful `Persist` moves `LastBlock().Index` to the next index. -/
theorem Persist_ok_index (l l1 : Ledger) (committed : Bool) (now ttl : Nat)
    (bucket key value : String)
    (h : Persist l committed now ttl bucket key value = .ok l1) :
    (LastBlock l1).Index = (LastBlock l).Index + 1 := by
  unfold Persist at h
  cases committed with
  | false => simp at h
  | true =>
    simp only [if_true, Except.ok.injEq] at h
    subst h
    rw [LastBlock_append]
    simp

theorem persistAll_chain (calls : List PersistCall) (l : Ledger) :
    List.Chain (fun a b => a < b) (LastBlock l).Index (persistAll l calls).2
      ∧ (LastBlock (persistAll l calls).1).Index
          = (LastBlock l).Index + (persistAll l calls).2.length
      ∧ (persistAll l calls).2.length = (calls.filter (fun c => c.committed)).length := by
  induction calls generalizing l with
  | nil => exact ⟨List.Chain.nil, rfl, rfl⟩
  | cons c cs ih =>
    cases hp : Persist l c.committed c.now c.ttl c.bucket c.key c.value with
    | error e =>
      have hc : c.committed = false := by
        cases hcc : c.committed with
        | false => rfl
        | true => simp [Persist, hcc] at hp
      obtain ⟨h1, h2, h3⟩ := ih l
      simp only [persistAll, hp]
      refine ⟨h1, h2, ?_⟩
      rw [h3]
      simp [List.filter, hc]
    | ok l1 =>
      have hc : c.committed = true := by
        cases hcc : c.committed with
        | true => rfl
        | false => simp [Persist, hcc] at hp
      have hi := Persist_ok_index l l1 _ _ _ _ _ _ hp
      obtain ⟨h1, h2, h3⟩ := ih l1
      simp only [persistAll, hp]
      refine ⟨List.Chain.cons (by omega) h1, ?_, ?_⟩
      · rw [h2, hi]
        simp only [List.length_cons]
        omega
      · simp only [List.length_cons, h3]
        simp [List.filter, hc]

/-- C8: `Persist` is monotonic on the ledger contract. A call whose commit is acknowledged
succeeds; every successful call leaves `LastBlock().Index` strictly greater than before;
over any sequence of calls the indices read after the successful calls form a strictly
increasing chain above the starting index, the index never goes backward, and it differs
from the starting index as soon as one call has succeeded. -/
theorem Persist_index_strictly_increases (l : Ledger) (calls : List PersistCall) :
    (∀ c : PersistCall, c.committed = true →
        ∃ l1, Persist l c.committed c.now c.ttl c.bucket c.key c.value = .ok l1)
      ∧ (∀ (c : PersistCall) (l1 : Ledger),
          Persist l c.committed c.now c.ttl c.bucket c.key c.value = .ok l1 →
          (LastBlock l).Index < (LastBlock l1).Index)
      ∧ List.Chain (fun a b => a < b) (LastBlock l).Index (persistAll l calls).2
      ∧ (LastBlock l).Index ≤ (LastBlock (persistAll l calls).1).Index
      ∧ ((∃ c ∈ calls, c.committed = true) →
          (LastBlock (persistAll l calls).1).Index ≠ (LastBlock l).Index) := by
  obtain ⟨h1, h2, h3⟩ := persistAll_chain calls l
  refine ⟨?_, ?_, h1, by omega, ?_⟩
  · intro c hc
    simp [Persist, hc]
  · intro c l1 hp
    have := Persist_ok_index l l1 _ _ _ _ _ _ hp
    omega
  · rintro ⟨c, hmem, hc⟩
    have hpos : 0 < (calls.filter (fun c => c.committed)).length :=
      List.length_pos_of_mem (List.mem_filter.mpr ⟨hmem, hc⟩)
    omega

/-- C8 on an empty ledger: the call of the services test, a call that times out and a
further write. The indices read after the two successful calls are 1 and 2. -/
theorem Persist_index_strictly_increases_witness :
    (persistAll { blocks := [] }
        [⟨true, 100, 100, "t", "t", "test"⟩, ⟨false, 101, 100, "t", "u", "lost"⟩,
         ⟨true, 102, 100, "t", "t", "again"⟩]).2 = [1, 2]
      ∧ (LastBlock (persistAll { blocks := [] }
          [⟨true, 100, 100, "t", "t", "test"⟩, ⟨false, 101, 100, "t", "u", "lost"⟩,
           ⟨true, 102, 100, "t", "t", "again"⟩]).1).Index ≠ (LastBlock { blocks := [] }).Index :=
  ⟨by decide,
   (Persist_index_strictly_increases { blocks := [] }
      [⟨true, 100, 100, "t", "t", "test"⟩, ⟨false, 101, 100, "t", "u", "lost"⟩,
       ⟨true, 102, 100, "t", "t", "again"⟩]).2.2.2.2
     ⟨⟨true, 100, 100, "t", "t", "test"⟩, by simp, rfl⟩⟩

end EdgeVPN
